import Mathlib

/-!
# identity-tools-cli (iamctl): version gate and OIDC-scope reconciliation

A shallow embedding of

* `iamctl/pkg/utils/versionUtils.go` (`ParseVersion`, `CompareVersions`,
  `IsEntitySupportedInVersion`),
* `iamctl/configs/versionRequirements.go` (`EntityVersionRequirements`),
* `iamctl/pkg/oidcScopes/{import,export,oidcScopeUtils}.go`.

Conventions of the embedding.

* A Go `string` is a Lean `String`, so a sequence of Unicode characters (a Go
  string that is not valid UTF-8 has no counterpart); the functions of the Go
  standard library that the code calls (`strings.TrimSpace`, `strings.Split`,
  `strconv.Atoi`, `unicode.IsSpace`, `filepath.Ext`) are modelled on the
  character list, after their documented behaviour.
* A Go `int` is an `Int`; `strconv.Atoi` is the only place where the 64-bit
  range matters and it reports a range error there.
* A Go `error` is an `Option String` (`none` is `nil`).
* Calls to `log` are not part of the model.
-/

set_option autoImplicit false

/-- A Go `error` value: `none` is `nil`, `some msg` an error with its message. -/
abbrev error := Option String

/-! ## The pieces of the Go standard library used by `versionUtils.go` -/

namespace unicode

/-- Go `unicode.IsSpace`: the Unicode `White_Space` property. In Latin-1 these are
`'\t'`, `'\n'`, `'\v'`, `'\f'`, `'\r'`, `' '`, U+0085 and U+00A0. -/
def IsSpace (r : Char) : Bool :=
  let n := r.toNat
  (0x09 ≤ n && n ≤ 0x0d) || n == 0x20 || n == 0x85 || n == 0xa0 || n == 0x1680 ||
  (0x2000 ≤ n && n ≤ 0x200a) || n == 0x2028 || n == 0x2029 || n == 0x202f ||
  n == 0x205f || n == 0x3000

end unicode

namespace strings

/-- Drop the leading white space of a character list. -/
def trimLeft (s : List Char) : List Char := s.dropWhile unicode.IsSpace

/-- Drop the trailing white space of a character list. -/
def trimRight (s : List Char) : List Char :=
  (s.reverse.dropWhile unicode.IsSpace).reverse

/-- Go `strings.TrimSpace`: the string without its leading and trailing white space. -/
def TrimSpace (s : String) : String := ⟨trimRight (trimLeft s.data)⟩

/-- The pieces of a character list between the occurrences of `sep`. -/
def splitChars (sep : Char) : List Char → List (List Char)
  | [] => [[]]
  | c :: cs =>
    if c = sep then [] :: splitChars sep cs
    else
      match splitChars sep cs with
      | [] => [[c]]
      | piece :: pieces => (c :: piece) :: pieces

/-- Go `strings.Split(s, sep)` for a separator of one character: the substrings
between the separators; `Split("", sep)` is the one-element list `[""]`. -/
def Split (s : String) (sep : Char) : List String :=
  (splitChars sep s.data).map String.mk

/-- Go `strings.TrimSuffix(s, suffix)`: `s` without the trailing `suffix`, or `s`
itself when it does not end in `suffix`. -/
def TrimSuffix (s suffix : String) : String :=
  if suffix.data.isSuffixOf s.data then ⟨s.data.take (s.data.length - suffix.data.length)⟩
  else s

/-- Apply `f` to the last element of a list. -/
def mapLast {α : Type} (f : α → α) : List α → List α
  | [] => []
  | [x] => [f x]
  | x :: y :: l => x :: mapLast f (y :: l)

/-- The white-space trimming of `TrimSpace`, on a character list. -/
def trim (s : List Char) : List Char := trimRight (trimLeft s)

end strings

namespace strconv

/-- The size in bits of a Go `int` on the 64-bit platforms the tool is built for. -/
def intSize : Nat := 64

/-- The value of a decimal digit, `none` for any other character. -/
def digitVal (c : Char) : Option Nat :=
  if '0'.toNat ≤ c.toNat ∧ c.toNat ≤ '9'.toNat then some (c.toNat - '0'.toNat) else none

/-- The number written by a list of decimal digits after the digits read so far
gave `acc`; `none` when a character is not a decimal digit. -/
def parseDigits : List Char → Nat → Option Nat
  | [], acc => some acc
  | c :: cs, acc =>
    match digitVal c with
    | none => none
    | some d => parseDigits cs (acc * 10 + d)

/-- Go `strconv.Atoi`: an optional sign `+` or `-` followed by one or more decimal
digits, nothing else; a syntax error otherwise, and a range error (with the
nearest representable value) when the number does not fit a Go `int`. -/
def Atoi (s : String) : Int × error :=
  let badSyntax : Int × error :=
    (0, some ("strconv.Atoi: parsing \"" ++ s ++ "\": invalid syntax"))
  let outOfRange (v : Int) : Int × error :=
    (v, some ("strconv.Atoi: parsing \"" ++ s ++ "\": value out of range"))
  let body (neg : Bool) (ds : List Char) : Int × error :=
    match ds with
    | [] => badSyntax
    | _ :: _ =>
      match parseDigits ds 0 with
      | none => badSyntax
      | some n =>
        if neg then
          if n > 2 ^ (intSize - 1) then outOfRange (-(2 ^ (intSize - 1) : Int))
          else (-(n : Int), none)
        else
          if n ≥ 2 ^ (intSize - 1) then outOfRange ((2 ^ (intSize - 1) : Int) - 1)
          else ((n : Int), none)
  match s.data with
  | [] => badSyntax
  | c :: cs =>
    if c = '-' then body true cs
    else if c = '+' then body false cs
    else body false (c :: cs)

end strconv

/-! ## `iamctl/configs/versionRequirements.go` -/

namespace configs

/-- The resource-type tags of `configs` that key `EntityVersionRequirements`.
The file that declares these string constants is not among the sources, so
their values are parameters of the model. -/
structure ResourceTypes where
  APPLICATIONS : String
  IDENTITY_PROVIDERS : String
  CLAIMS : String
  USERSTORES : String

def MIN_VERSION_APPLICATIONS : String := "5.9.0"
def MIN_VERSION_IDENTITY_PROVIDERS : String := "5.9.0"
def MIN_VERSION_CLAIMS : String := "5.9.0"
def MIN_VERSION_USERSTORES : String := "5.9.0"

/-- The map `EntityVersionRequirements`, as the list of its entries. -/
def EntityVersionRequirements (t : ResourceTypes) : List (String × String) :=
  [ (t.APPLICATIONS, MIN_VERSION_APPLICATIONS),
    (t.IDENTITY_PROVIDERS, MIN_VERSION_IDENTITY_PROVIDERS),
    (t.CLAIMS, MIN_VERSION_CLAIMS),
    (t.USERSTORES, MIN_VERSION_USERSTORES) ]

end configs

/-! ## `iamctl/pkg/utils/versionUtils.go` -/

namespace utils

/-- The loop of `ParseVersion` over the components from index `i` on: each
component is trimmed and read by `Atoi`; the first one that is not an integer,
or is negative, ends the loop with an error and the parts filled so far. -/
def parseComponents : List String → Nat → List Int → List Int × error
  | [], _, parts => (parts, none)
  | component :: rest, i, parts =>
    match strconv.Atoi (strings.TrimSpace component) with
    | (_, some _) =>
      (parts, some ("invalid version component '" ++ component ++ "': must be an integer"))
    | (num, none) =>
      if num < 0 then
        (parts, some ("version component cannot be negative: " ++ toString num))
      else parseComponents rest (i + 1) (parts.set i num)

/-- Go `ParseVersion`: the `[3]int` result (a list of three integers, zero where
not filled) and the error. -/
def ParseVersion (version : String) : List Int × error :=
  let parts : List Int := [0, 0, 0]
  let components := strings.Split (strings.TrimSpace version) '.'
  if components.length ≠ 3 then
    (parts, some ("version must have format MAJOR.MINOR.PATCH, got: " ++ version))
  else parseComponents components 0 parts

/-- The loop `for i := 0; i < 3; i++` of `CompareVersions`, over the indices
still to visit. -/
def compareParts (parts1 parts2 : List Int) : List Nat → Int
  | [] => 0
  | i :: rest =>
    if parts1.getD i 0 < parts2.getD i 0 then -1
    else if parts1.getD i 0 > parts2.getD i 0 then 1
    else compareParts parts1 parts2 rest

/-- Go `CompareVersions`: `-1`, `0` or `1` and no error, or `0` and the error of
the side that does not parse. -/
def CompareVersions (v1 v2 : String) : Int × error :=
  match ParseVersion v1 with
  | (_, some err) => (0, some ("invalid version format for v1 (" ++ v1 ++ "): " ++ err))
  | (parts1, none) =>
    match ParseVersion v2 with
    | (_, some err) => (0, some ("invalid version format for v2 (" ++ v2 ++ "): " ++ err))
    | (parts2, none) => (compareParts parts1 parts2 [0, 1, 2], none)

/-- Go `IsEntitySupportedInVersion`, with the configured `SERVER_CONFIGS.Version`
as an argument. -/
def IsEntitySupportedInVersion (t : configs.ResourceTypes) (serverVersion : String)
    (resourceType : String) : Bool :=
  if serverVersion = "" then true
  else
    match (configs.EntityVersionRequirements t).lookup resourceType with
    | none => true
    | some minVersion =>
      match CompareVersions serverVersion minVersion with
      | (_, some _) => true
      | (comparison, none) => decide (comparison ≥ 0)

/-- The lexicographic order on version triples `(major, minor, patch)`. -/
def lexLt (a1 b1 c1 a2 b2 c2 : Int) : Prop :=
  a1 < a2 ∨ (a1 = a2 ∧ (b1 < b2 ∨ (b1 = b2 ∧ c1 < c2)))

end utils

/-! ## Paths and the helpers of `utils` that the OIDC-scope code calls

A path is kept as the list of its elements, so `filepath.Join(dir, name)` adds
one element and `filepath.Base` is the last one. -/

/-- A file path, as the list of its elements. -/
abbrev FilePath := List String

namespace filepath

/-- Go `filepath.Join(dir, elem)` for an element `elem` that is one plain path
element: not empty, without a separator, and neither `.` nor `..`, as the names
that `ioutil.ReadDir` returns are. For any other element Go cleans the joined
path (it drops an empty element and resolves `..`); the model does not follow
that and keeps the element as it is. -/
def Join (dir : FilePath) (elem : String) : FilePath := dir ++ [elem]

/-- Go `filepath.Base`: the last element of the path, `"."` for the empty path. -/
def Base (path : FilePath) : String := path.getLastD "."

/-- The loop of `filepath.Ext`, from the end of the path towards its start:
`acc` holds the characters already passed. -/
def extScan : List Char → List Char → List Char
  | [], _ => []
  | c :: cs, acc =>
    if c = '/' then []
    else if c = '.' then c :: acc
    else extScan cs (c :: acc)

/-- Go `filepath.Ext`: the suffix beginning at the final dot in the final element
of the path, empty if there is no dot. -/
def Ext (path : String) : String := ⟨extScan path.data.reverse []⟩

end filepath

namespace utils

/-- Go `utils.FileInfo`. -/
structure FileInfo where
  FileName : String
  FileExtension : String
  ResourceName : String

/-- Modelled from the spec: `utils.GetFileInfo` is not among the sources. A
local file's "resource name is derived by stripping the file extension" of its
file name. -/
def GetFileInfo (filePath : FilePath) : FileInfo :=
  let fileName := filepath.Base filePath
  let fileExtension := filepath.Ext fileName
  { FileName := fileName
    FileExtension := fileExtension
    ResourceName := strings.TrimSuffix fileName fileExtension }

/-- Modelled from the spec: `utils.IsResourceExcluded` is not among the sources.
It is "true iff resourceName appears in that resource type's exclusion list.
Pure lookup, no I/O." -/
def IsResourceExcluded (resourceName : String) (exclusionList : List String) : Bool :=
  decide (resourceName ∈ exclusionList)

/-- The operation kinds `utils.EXPORT`, `utils.IMPORT`, `utils.UPDATE` and
`utils.DELETE` of the run summary. -/
inductive Operation where
  | EXPORT
  | IMPORT
  | UPDATE
  | DELETE
  deriving DecidableEq, Repr

end utils

/-! ## `iamctl/pkg/oidcScopes`

The code talks to three collaborators that are not part of it: the transport
(`utils.Send...Request`), the local file system and the run summary
(`utils.UpdateSuccessSummary`, `utils.UpdateFailureSummary`). Every call to the
transport, every write to the file system and every mutation of the run summary
is recorded, in order, as an `Event`; a function that performs such calls takes
the events so far and returns them extended. The answer of the transport to a
call may depend on all the events before it; the local files are the same
throughout a run. All calls are for the resource type `utils.OIDC_SCOPES`,
which the events leave out. -/

namespace oidcScopes

/-- The struct `oidcScope`. -/
structure oidcScope where
  Name : String
  DisplayName : String
  Description : String
  Claims : List String
  deriving DecidableEq, Repr

/-- One call to a collaborator. -/
inductive Event where
  /-- Go `utils.SendGetListRequest(utils.OIDC_SCOPES, -1)` -/
  | SendGetListRequest
  /-- Go `utils.SendExportRequest(scopeName, fileType, utils.OIDC_SCOPES, false)` -/
  | SendExportRequest (scopeName fileType : String)
  /-- Go `utils.SendImportRequest(importFilePath, fileData, utils.OIDC_SCOPES)` -/
  | SendImportRequest (importFilePath : FilePath) (fileData : String)
  /-- Go `utils.SendUpdateRequest(scopeId, importFilePath, fileData, utils.OIDC_SCOPES)` -/
  | SendUpdateRequest (scopeId : String) (importFilePath : FilePath) (fileData : String)
  /-- Go `utils.SendDeleteRequest(scopeName, utils.OIDC_SCOPES)` -/
  | SendDeleteRequest (scopeName : String)
  /-- Go `utils.UpdateSuccessSummary(utils.OIDC_SCOPES, operation)` -/
  | UpdateSuccessSummary (operation : utils.Operation)
  /-- Go `utils.UpdateFailureSummary(utils.OIDC_SCOPES, resourceName)` -/
  | UpdateFailureSummary (resourceName : String)
  /-- Go `os.MkdirAll(path, 0700)` -/
  | MkdirAll (path : FilePath)
  /-- Go `utils.RemoveDeletedLocalResources(path, deployedNames)` -/
  | RemoveDeletedLocalResources (path : FilePath) (deployedNames : List String)
  /-- Go `ioutil.WriteFile(path, data, 0644)` -/
  | WriteFile (path : FilePath) (data : String)
  deriving DecidableEq, Repr

/-- An HTTP response, as far as the code looks at it. -/
structure Response where
  /-- Go `resp.StatusCode` -/
  StatusCode : Nat
  /-- Go `resp.Header.Get("Content-Disposition")` -/
  ContentDisposition : String
  /-- Go `ioutil.ReadAll(resp.Body)` -/
  Body : Except String String

/-- A keyword mapping (`map[string]interface{}`), as the list of its entries. -/
abbrev KeywordMapping := List (String × String)

/-- Everything outside the OIDC-scope code that a run depends on: the
configuration, the local files, the library functions and the transport. -/
structure Env where
  /-- The constant `utils.OIDC_SCOPES`. -/
  OIDC_SCOPES : String
  /-- The constants `utils.MEDIA_TYPE_JSON`, `_XML` and `_YAML`. -/
  MEDIA_TYPE_JSON : String
  MEDIA_TYPE_XML : String
  MEDIA_TYPE_YAML : String
  /-- The result of `utils.IsResourceTypeExcluded(utils.OIDC_SCOPES)`. -/
  IsResourceTypeExcluded : Bool
  /-- Go `utils.TOOL_CONFIGS.AllowDelete` -/
  AllowDelete : Bool
  /-- The exclusion list of `utils.TOOL_CONFIGS.OidcScopeConfigs`. -/
  OidcScopeConfigs : List String
  /-- Go `utils.KEYWORD_CONFIGS.KeywordMappings` -/
  KeywordMappings : KeywordMapping
  /-- Go `utils.KEYWORD_CONFIGS.OidcScopeConfigs`, `none` when it is `nil`; when
  present it is given by what `utils.ResolveAdvancedKeywordMapping` makes of it. -/
  ResolveAdvancedKeywordMapping : Option (String → KeywordMapping)
  /-- Go `utils.ReplaceKeywords` -/
  ReplaceKeywords : String → KeywordMapping → String
  /-- Go `utils.ProcessExportedContent(path, body, mapping, utils.OIDC_SCOPES)` -/
  ProcessExportedContent : FilePath → String → KeywordMapping → Except String String
  /-- Go `utils.ErrorCodes` -/
  ErrorCodes : Nat → Option String
  /-- Whether `os.Stat(path)` fails with an error that `os.IsNotExist`. -/
  StatIsNotExist : FilePath → Bool
  /-- Go `ioutil.ReadDir(path)`: the names of the entries and the error. -/
  ReadDir : FilePath → List String × error
  /-- Go `ioutil.ReadFile(path)` -/
  ReadFile : FilePath → Except String String
  /-- Go `yaml.Unmarshal(fileContent, &scopeConfig)`: the `name` field read. -/
  yamlUnmarshal : String → Except String String
  /-- Go `json.Unmarshal(body, &list)` -/
  jsonUnmarshal : String → Except String (List oidcScope)
  /-- Go `mime.ParseMediaType(header)`: the parameters of the header. -/
  ParseMediaType : String → Except String (String → String)
  /-- The transport, given the events before the call. -/
  SendGetListRequest : List Event → Except String Response
  SendExportRequest : List Event → String → String → Except String Response
  SendImportRequest : List Event → FilePath → String → error
  SendUpdateRequest : List Event → String → FilePath → String → error
  SendDeleteRequest : List Event → String → error
  /-- Go `ioutil.WriteFile`, given the events before the call. -/
  WriteFile : List Event → FilePath → String → error

/-! ### `oidcScopeUtils.go` -/

/-- Go `getOidcScopeList`: the scopes the server lists, or the error. -/
def getOidcScopeList (env : Env) (h : List Event) :
    Except String (List oidcScope) × List Event :=
  let h1 := h ++ [Event.SendGetListRequest]
  match env.SendGetListRequest h with
  | .error err => (.error ("error while retrieving OIDC scope list. " ++ err), h1)
  | .ok resp =>
    if resp.StatusCode = 200 then
      match resp.Body with
      | .error err => (.error ("error when reading the retrieved OIDC scope list. " ++ err), h1)
      | .ok body =>
        match env.jsonUnmarshal body with
        | .error err =>
          (.error ("error when unmarshalling the retrieved OIDC scope list. " ++ err), h1)
        | .ok list => (.ok list, h1)
    else
      match env.ErrorCodes resp.StatusCode with
      | some msg =>
        (.error ("error while retrieving OIDC scope list. Status code: " ++
          toString resp.StatusCode ++ ", Error: " ++ msg), h1)
      | none => (.error "error while retrieving OIDC scope list", h1)

/-- Go `getDeployedOidcScopeNames` -/
def getDeployedOidcScopeNames (env : Env) (h : List Event) : List String × List Event :=
  match getOidcScopeList env h with
  | (.error _, h1) => ([], h1)
  | (.ok scopes, h1) => (scopes.map (fun scope => scope.Name), h1)

/-- Go `getOidcScopeKeywordMapping` -/
def getOidcScopeKeywordMapping (env : Env) (scopeName : String) : KeywordMapping :=
  match env.ResolveAdvancedKeywordMapping with
  | some resolve => resolve scopeName
  | none => env.KeywordMappings

/-- Go `isScopeExists`: whether the name in the body of the file is the name of a
deployed scope. -/
def isScopeExists (env : Env) (h : List Event) (scopeFilePath : FilePath)
    (scopeName : String) : (Bool × error) × List Event :=
  match env.ReadFile scopeFilePath with
  | .error err =>
    ((false, some ("error when reading the file for OIDC scope: " ++ scopeName ++ ". " ++ err)), h)
  | .ok fileContent =>
    match env.yamlUnmarshal fileContent with
    | .error err =>
      ((false, some ("invalid file content for OIDC scope: " ++ scopeName ++ ". " ++ err)), h)
    | .ok scopeConfigName =>
      match getOidcScopeList env h with
      | (.error err, h1) =>
        ((false, some ("error when retrieving the deployed OIDC scope list: " ++ err)), h1)
      | (.ok existingScopeList, h1) =>
        ((existingScopeList.any (fun scope => scope.Name == scopeConfigName), none), h1)

/-! ### `import.go` -/

/-- Go `importScope` -/
def importScope (env : Env) (h : List Event) (importFilePath : FilePath)
    (modifiedFileData : String) (fileInfo : utils.FileInfo) : error × List Event :=
  let h1 := h ++ [Event.SendImportRequest importFilePath modifiedFileData]
  match env.SendImportRequest h importFilePath modifiedFileData with
  | some err =>
    (some ("error when importing OIDC scope: " ++ err),
      h1 ++ [Event.UpdateFailureSummary fileInfo.ResourceName])
  | none => (none, h1 ++ [Event.UpdateSuccessSummary utils.Operation.IMPORT])

/-- Go `updateScope` -/
def updateScope (env : Env) (h : List Event) (scopeId : String) (importFilePath : FilePath)
    (modifiedFileData : String) (fileInfo : utils.FileInfo) : error × List Event :=
  let h1 := h ++ [Event.SendUpdateRequest scopeId importFilePath modifiedFileData]
  match env.SendUpdateRequest h scopeId importFilePath modifiedFileData with
  | some err =>
    (some ("error when updating OIDC scope: " ++ err),
      h1 ++ [Event.UpdateFailureSummary fileInfo.ResourceName])
  | none => (none, h1 ++ [Event.UpdateSuccessSummary utils.Operation.UPDATE])

/-- Go `importOidcScope` -/
def importOidcScope (env : Env) (h : List Event) (scopeName : String) (scopeExists : Bool)
    (importFilePath : FilePath) : error × List Event :=
  match env.ReadFile importFilePath with
  | .error err => (some ("error when reading the file for OIDC scope: " ++ err), h)
  | .ok fileBytes =>
    let fileInfo := utils.GetFileInfo importFilePath
    let scopeKeywordMapping := getOidcScopeKeywordMapping env fileInfo.ResourceName
    let modifiedFileData := env.ReplaceKeywords fileBytes scopeKeywordMapping
    if !scopeExists then importScope env h importFilePath modifiedFileData fileInfo
    else updateScope env h scopeName importFilePath modifiedFileData fileInfo

/-- The body of the loop of `removeDeletedDeployedScopes` for one deployed
scope. -/
def removeDeployedScope (env : Env) (localFiles : List String) (h : List Event)
    (scope : oidcScope) : List Event :=
  if localFiles.any (fun file => scope.Name == (utils.GetFileInfo [file]).ResourceName) then h
  else if utils.IsResourceExcluded scope.Name env.OidcScopeConfigs then h
  else
    let h1 := h ++ [Event.SendDeleteRequest scope.Name]
    let h2 :=
      match env.SendDeleteRequest h scope.Name with
      | some _ => h1 ++ [Event.UpdateFailureSummary scope.Name]
      | none => h1
    h2 ++ [Event.UpdateSuccessSummary utils.Operation.DELETE]

/-- Go `removeDeletedDeployedScopes` -/
def removeDeletedDeployedScopes (env : Env) (h : List Event) (localFiles : List String) :
    List Event :=
  match getOidcScopeList env h with
  | (.error _, h1) => h1
  | (.ok deployedScopes, h1) => deployedScopes.foldl (removeDeployedScope env localFiles) h1

/-- The body of the loop of `ImportAll` for one local file. -/
def importFile (env : Env) (importFilePath : FilePath) (h : List Event) (file : String) :
    List Event :=
  let scopeFilePath := filepath.Join importFilePath file
  let scopeName := strings.TrimSuffix file (filepath.Ext file)
  if !utils.IsResourceExcluded scopeName env.OidcScopeConfigs then
    match isScopeExists env h scopeFilePath scopeName with
    | ((_, some _), h1) => h1
    | ((scopeExists, none), h1) => (importOidcScope env h1 scopeName scopeExists scopeFilePath).2
  else h

/-- Go `ImportAll`: the events of one import run. -/
def ImportAll (env : Env) (inputDirPath : FilePath) : List Event :=
  let importFilePath := filepath.Join inputDirPath env.OIDC_SCOPES
  if env.IsResourceTypeExcluded then []
  else
    let (files, h) : List String × List Event :=
      if env.StatIsNotExist importFilePath then ([], [])
      else
        let files := (env.ReadDir importFilePath).1
        if env.AllowDelete then (files, removeDeletedDeployedScopes env [] files)
        else (files, [])
    files.foldl (importFile env importFilePath) h

/-! ### `export.go` -/

/-- Go `exportOidcScope` -/
def exportOidcScope (env : Env) (h : List Event) (scopeName : String)
    (outputDirPath : FilePath) (format : String) : error × List Event :=
  let fileType :=
    if format = "json" then env.MEDIA_TYPE_JSON
    else if format = "xml" then env.MEDIA_TYPE_XML
    else env.MEDIA_TYPE_YAML
  let h1 := h ++ [Event.SendExportRequest scopeName fileType]
  match env.SendExportRequest h scopeName fileType with
  | .error err => (some ("error while exporting the OIDC scope: " ++ err), h1)
  | .ok resp =>
    match env.ParseMediaType resp.ContentDisposition with
    | .error err => (some ("error while parsing the content disposition header: " ++ err), h1)
    | .ok params =>
      let fileName := params "filename"
      let exportedFileName := filepath.Join outputDirPath fileName
      let fileInfo := utils.GetFileInfo exportedFileName
      match resp.Body with
      | .error err =>
        (some ("error while reading the response body when exporting OIDC scope: " ++
          fileName ++ ". " ++ err), h1)
      | .ok body =>
        let scopeKeywordMapping := getOidcScopeKeywordMapping env fileInfo.ResourceName
        match env.ProcessExportedContent exportedFileName body scopeKeywordMapping with
        | .error err => (some ("error while processing the exported content: " ++ err), h1)
        | .ok modifiedFile =>
          let h2 := h1 ++ [Event.WriteFile exportedFileName modifiedFile]
          match env.WriteFile h1 exportedFileName modifiedFile with
          | some err => (some ("error when writing the exported content to file: " ++ err), h2)
          | none => (none, h2)

/-- The body of the loop of `ExportAll` for one listed scope. -/
def exportScope (env : Env) (exportFilePath : FilePath) (format : String) (h : List Event)
    (scope : oidcScope) : List Event :=
  if !utils.IsResourceExcluded scope.Name env.OidcScopeConfigs then
    match exportOidcScope env h scope.Name exportFilePath format with
    | (some _, h1) => h1 ++ [Event.UpdateFailureSummary scope.Name]
    | (none, h1) => h1 ++ [Event.UpdateSuccessSummary utils.Operation.EXPORT]
  else h

/-- The events of `ExportAll` before it lists the scopes to export: the output
directory is created, or, with delete-sync, the local files of scopes that are
no longer deployed are removed. -/
def exportPrepare (env : Env) (exportFilePath : FilePath) : List Event :=
  if env.StatIsNotExist exportFilePath then [Event.MkdirAll exportFilePath]
  else if env.AllowDelete then
    match getDeployedOidcScopeNames env [] with
    | (deployedScopeNames, h1) =>
      h1 ++ [Event.RemoveDeletedLocalResources exportFilePath deployedScopeNames]
  else []

/-- Go `ExportAll`: the events of one export run. -/
def ExportAll (env : Env) (exportFilePath : FilePath) (format : String) : List Event :=
  let exportFilePath := filepath.Join exportFilePath env.OIDC_SCOPES
  if env.IsResourceTypeExcluded then []
  else
    match getOidcScopeList env (exportPrepare env exportFilePath) with
    | (.error _, h1) => h1
    | (.ok scopes, h1) => scopes.foldl (exportScope env exportFilePath format) h1

/-! ### Reading a trace -/

/-- The paths of the create requests of a trace, in order. -/
def createRequests (tr : List Event) : List FilePath :=
  tr.filterMap fun e =>
    match e with
    | Event.SendImportRequest path _ => some path
    | _ => none

/-- The target identifiers and paths of the update requests of a trace, in order. -/
def updateRequests (tr : List Event) : List (String × FilePath) :=
  tr.filterMap fun e =>
    match e with
    | Event.SendUpdateRequest scopeId path _ => some (scopeId, path)
    | _ => none

/-- The scope names of the delete requests of a trace, in order. -/
def deleteRequests (tr : List Event) : List String :=
  tr.filterMap fun e =>
    match e with
    | Event.SendDeleteRequest scopeName => some scopeName
    | _ => none

/-- The scope names of the export requests of a trace, in order. -/
def exportRequests (tr : List Event) : List String :=
  tr.filterMap fun e =>
    match e with
    | Event.SendExportRequest scopeName _ => some scopeName
    | _ => none

/-- Whether an event is a mutation of the run summary. -/
def Event.isSummary : Event → Bool
  | Event.UpdateSuccessSummary _ => true
  | Event.UpdateFailureSummary _ => true
  | _ => false

/-- The mutations of the run summary in a trace, in order. -/
def summaryMutations (tr : List Event) : List Event := tr.filter Event.isSummary

/-- Modelled from the spec: the run summary keeps "counters keyed by
(ResourceType, OperationKind) for successes"; this is the amount a trace adds to
the counter of `operation`. -/
def successCount (operation : utils.Operation) (tr : List Event) : Nat :=
  tr.count (Event.UpdateSuccessSummary operation)

/-- Modelled from the spec: the run summary keeps "a separate set of
(ResourceType, resourceName) entries for failures"; these are the names a trace
adds to it. -/
def failureEntries (tr : List Event) : List String :=
  tr.filterMap fun e =>
    match e with
    | Event.UpdateFailureSummary resourceName => some resourceName
    | _ => none

/-! ### Environments for worked examples -/

/-- A deployed scope with the given name and no further content. -/
def scopeNamed (name : String) : oidcScope :=
  { Name := name, DisplayName := name, Description := "", Claims := [] }

/-- The content of the local file `fileName` among `files`, pairs of a file
name and a content. -/
def exampleReadFile (files : List (String × String)) (path : FilePath) : Except String String :=
  match files.lookup (filepath.Base path) with
  | some content => .ok content
  | none => .error "no such file"

/-- A YAML decoder for bodies of the form `name: <scope name>`: the text after
the first six characters. -/
def exampleYamlUnmarshal (fileContent : String) : Except String String :=
  .ok ⟨fileContent.data.drop 6⟩

/-- An environment for worked examples. The import directory exists and holds
`files` (file name and content); the server lists the scopes named `deployed`
at every list call; the scopes named in `excluded` are excluded; a delete,
create, update or export request fails exactly for the names in `failing`
(for a create, the resource name of the file). The body of a list response is
the comma-separated list of the deployed names. -/
def exampleEnv (files : List (String × String)) (deployed excluded failing : List String)
    (allowDelete : Bool) : Env where
  OIDC_SCOPES := "OidcScopes"
  MEDIA_TYPE_JSON := "application/json"
  MEDIA_TYPE_XML := "application/xml"
  MEDIA_TYPE_YAML := "application/yaml"
  IsResourceTypeExcluded := false
  AllowDelete := allowDelete
  OidcScopeConfigs := excluded
  KeywordMappings := []
  ResolveAdvancedKeywordMapping := none
  ReplaceKeywords := fun fileData _ => fileData
  ProcessExportedContent := fun _ body _ => .ok body
  ErrorCodes := fun _ => none
  StatIsNotExist := fun _ => false
  ReadDir := fun _ => (files.map Prod.fst, none)
  ReadFile := exampleReadFile files
  yamlUnmarshal := exampleYamlUnmarshal
  jsonUnmarshal := fun body =>
    .ok (if body = "" then [] else (strings.Split body ',').map scopeNamed)
  ParseMediaType := fun header => .ok (fun _ => header)
  SendGetListRequest := fun _ =>
    .ok { StatusCode := 200, ContentDisposition := "", Body := .ok (",".intercalate deployed) }
  SendExportRequest := fun _ scopeName _ =>
    if scopeName ∈ failing then .error "500"
    else .ok { StatusCode := 200, ContentDisposition := scopeName ++ ".yaml",
               Body := .ok ("name: " ++ scopeName) }
  SendImportRequest := fun _ path _ =>
    if (utils.GetFileInfo path).ResourceName ∈ failing then some "500" else none
  SendUpdateRequest := fun _ scopeId _ _ => if scopeId ∈ failing then some "500" else none
  SendDeleteRequest := fun _ scopeName => if scopeName ∈ failing then some "500" else none
  WriteFile := fun _ _ _ => none

/-- The example environment in which enumerating the import directory fails and
returns no file, everything else as in `exampleEnv` without local files. -/
def exampleEnvReadDirFails (deployed excluded failing : List String) (allowDelete : Bool) :
    Env :=
  { exampleEnv [] deployed excluded failing allowDelete with
    ReadDir := fun _ => ([], some "open: permission denied") }

/-- The names of the scopes that a server which applies the requests it gets
lists after the events `h`, when it listed `initial` before them: a delete
request removes the name, a create request adds the name in the body sent. -/
def deployedNamesAfter (initial : List String) (h : List Event) : List String :=
  h.foldl
    (fun names e =>
      match e with
      | Event.SendDeleteRequest scopeName => names.filter (fun name => name != scopeName)
      | Event.SendImportRequest _ fileData => names ++ [String.mk (fileData.data.drop 6)]
      | _ => names)
    initial

/-- The example environment with a server that applies the requests it gets:
it lists `initial` at first, and at every later list call what
`deployedNamesAfter` gives for the events so far. Nothing is excluded, every
request succeeds and delete-sync is enabled. -/
def exampleServerEnv (files : List (String × String)) (initial : List String) : Env :=
  { exampleEnv files initial [] [] true with
    SendGetListRequest := fun h =>
      .ok { StatusCode := 200, ContentDisposition := "",
            Body := .ok (",".intercalate (deployedNamesAfter initial h)) } }

/-- The example environment in which the import directory does not exist,
everything else as in `exampleEnv` without local files. -/
def exampleEnvNoDirectory (deployed : List String) : Env :=
  { exampleEnv [] deployed [] [] true with StatIsNotExist := fun _ => true }

/-- The example environment in which the resource type is excluded, everything
else as in `exampleEnv` without local files. -/
def exampleEnvTypeExcluded (deployed : List String) : Env :=
  { exampleEnv [] deployed [] [] true with IsResourceTypeExcluded := true }

/-! ### The notions the claims are stated with -/

/-- The scope name that `ImportAll` derives from the name of a local file: the
file name without its extension. -/
def derivedScopeName (file : String) : String :=
  strings.TrimSuffix file (filepath.Ext file)

/-- The authoritative scope name of a local file: the `name` field of its body,
when the file can be read and its body decoded. -/
def authoritativeName (env : Env) (scopeFilePath : FilePath) : Option String :=
  match env.ReadFile scopeFilePath with
  | .error _ => none
  | .ok fileContent =>
    match env.yamlUnmarshal fileContent with
    | .error _ => none
    | .ok scopeConfigName => some scopeConfigName

/-- Whether an event is a request for the scope `name` or a failure entry of the
run summary for it. A create or update request is for the scope that the code
derives from the file name; an update request is also for its target. -/
def Event.concerns (name : String) : Event → Bool
  | Event.SendExportRequest scopeName _ => scopeName == name
  | Event.SendImportRequest path _ => (utils.GetFileInfo path).ResourceName == name
  | Event.SendUpdateRequest scopeId path _ =>
    scopeId == name || (utils.GetFileInfo path).ResourceName == name
  | Event.SendDeleteRequest scopeName => scopeName == name
  | Event.UpdateFailureSummary resourceName => resourceName == name
  | _ => false

/-- Whether a scope named `name` is among the deployed scopes. -/
def isDeployed (deployed : List oidcScope) (name : String) : Bool :=
  deployed.any (fun scope => scope.Name == name)

/-- Whether a local file has `name` as its derived scope name. -/
def hasLocalFile (localFiles : List String) (name : String) : Bool :=
  localFiles.any (fun file => name == derivedScopeName file)

/-- The local files to create: their authoritative name is not deployed. -/
def toCreate (env : Env) (deployed : List oidcScope) (scopeFilePath : FilePath) : Bool :=
  match authoritativeName env scopeFilePath with
  | some name => !isDeployed deployed name
  | none => false

/-- The local files to update: their authoritative name is deployed. -/
def toUpdate (env : Env) (deployed : List oidcScope) (scopeFilePath : FilePath) : Bool :=
  match authoritativeName env scopeFilePath with
  | some name => isDeployed deployed name
  | none => false

/-- The events of a delete-sync pass in which every delete request succeeds and
nothing is excluded, for one deployed scope. -/
def deleteEventsOf (localFiles : List String) (scope : oidcScope) : List Event :=
  if hasLocalFile localFiles scope.Name then []
  else [Event.SendDeleteRequest scope.Name, Event.UpdateSuccessSummary utils.Operation.DELETE]

/-- The events of an import in which the server lists `deployed` and every
create and update request succeeds, for one local file that is not excluded. -/
def importEventsOf (env : Env) (deployed : List oidcScope) (importFilePath : FilePath)
    (file : String) : List Event :=
  let scopeFilePath := filepath.Join importFilePath file
  match env.ReadFile scopeFilePath with
  | .error _ => []
  | .ok fileContent =>
    match env.yamlUnmarshal fileContent with
    | .error _ => []
    | .ok name =>
      let data :=
        env.ReplaceKeywords fileContent (getOidcScopeKeywordMapping env (derivedScopeName file))
      if isDeployed deployed name then
        [Event.SendGetListRequest,
          Event.SendUpdateRequest (derivedScopeName file) scopeFilePath data,
          Event.UpdateSuccessSummary utils.Operation.UPDATE]
      else
        [Event.SendGetListRequest, Event.SendImportRequest scopeFilePath data,
          Event.UpdateSuccessSummary utils.Operation.IMPORT]

/-- The scopes that the server lists when it is asked after the events `h`, none
when the list call fails. -/
def deployedAt (env : Env) (h : List Event) : List oidcScope :=
  match (getOidcScopeList env h).1 with
  | .ok deployed => deployed
  | .error _ => []

/-- The paths of the create and update requests of a trace, in order. -/
def fileRequests (tr : List Event) : List FilePath :=
  tr.filterMap fun e =>
    match e with
    | Event.SendImportRequest path _ => some path
    | Event.SendUpdateRequest _ path _ => some path
    | _ => none

/-- The import loop in which every request succeeds and nothing is excluded:
the local files one after the other, each decided against the scopes that the
server lists at that moment, after the events so far. -/
def reconcileEach (env : Env) (importFilePath : FilePath) :
    List String → List Event → List Event
  | [], h => h
  | file :: rest, h =>
    reconcileEach env importFilePath rest
      (h ++ importEventsOf env (deployedAt env h) importFilePath file)

/-- The environment in which the import directory holds no file whose derived
scope name is `name`, everything else as in `env`. -/
def Env.withoutLocalFilesOf (env : Env) (name : String) : Env :=
  { env with
    ReadDir := fun path =>
      ((env.ReadDir path).1.filter (fun file => decide (derivedScopeName file ≠ name)),
        (env.ReadDir path).2) }

/-- The export run that the specification describes, over the names of the
scopes to export: one attempt for each name, in order, whatever the earlier
attempts gave, and after each attempt exactly one mutation of the run summary,
an `EXPORT` success when the attempt returned no error and else a failure entry
for that name. -/
def attemptEach (env : Env) (exportFilePath : FilePath) (format : String) :
    List String → List Event → List Event
  | [], h => h
  | name :: rest, h =>
    let attempt := exportOidcScope env h name exportFilePath format
    attemptEach env exportFilePath format rest
      (attempt.2 ++
        [if attempt.1 = none then Event.UpdateSuccessSummary utils.Operation.EXPORT
         else Event.UpdateFailureSummary name])

end oidcScopes

/-! ## Facts about trimming and splitting -/

namespace strings

theorem IsSpace_ne_dot {c : Char} (h : unicode.IsSpace c = true) : c ≠ '.' := by
  rintro rfl
  exact absurd h (by decide)

theorem splitChars_ne_nil (sep : Char) (s : List Char) : splitChars sep s ≠ [] := by
  cases s with
  | nil => simp [splitChars]
  | cons c cs =>
    unfold splitChars
    split_ifs
    · simp
    · split <;> simp

theorem splitChars_cons_ne (sep c : Char) (s : List Char) (h : c ≠ sep) :
    ∃ p ps, splitChars sep s = p :: ps ∧ splitChars sep (c :: s) = (c :: p) :: ps := by
  rcases hs : splitChars sep s with _ | ⟨p, ps⟩
  · exact absurd hs (splitChars_ne_nil sep s)
  · refine ⟨p, ps, rfl, ?_⟩
    conv_lhs => unfold splitChars
    simp [h, hs]

theorem splitChars_concat_ne (sep w : Char) (h : w ≠ sep) (s : List Char) :
    splitChars sep (s ++ [w]) = mapLast (fun p => p ++ [w]) (splitChars sep s) := by
  induction s with
  | nil => simp [splitChars, h, mapLast]
  | cons c cs ih =>
    by_cases hc : c = sep
    · have e1 : splitChars sep (c :: cs ++ [w]) = [] :: splitChars sep (cs ++ [w]) := by
        conv_lhs => unfold splitChars
        simp [hc]
      have e2 : splitChars sep (c :: cs) = [] :: splitChars sep cs := by
        conv_lhs => unfold splitChars
        simp [hc]
      rw [e1, e2, ih]
      rcases hs : splitChars sep cs with _ | ⟨p, ps⟩
      · exact absurd hs (splitChars_ne_nil sep cs)
      · simp [mapLast]
    · obtain ⟨p, ps, hp, hcp⟩ := splitChars_cons_ne sep c cs hc
      obtain ⟨q, qs, hq, hcq⟩ := splitChars_cons_ne sep c (cs ++ [w]) hc
      rw [List.cons_append, hcq, hcp]
      rw [ih, hp] at hq
      cases ps with
      | nil =>
        simp only [mapLast, List.cons.injEq] at hq ⊢
        obtain ⟨rfl, rfl⟩ := hq
        simp
      | cons y l =>
        simp only [mapLast, List.cons.injEq] at hq ⊢
        obtain ⟨rfl, rfl⟩ := hq
        simp

theorem trim_cons_space (w : Char) (h : unicode.IsSpace w = true) (p : List Char) :
    trim (w :: p) = trim p := by
  simp [trim, trimLeft, List.dropWhile_cons, h]

theorem trim_concat_space (w : Char) (h : unicode.IsSpace w = true) (p : List Char) :
    trim (p ++ [w]) = trim p := by
  unfold trim trimLeft
  rw [List.dropWhile_append]
  by_cases he : (List.dropWhile unicode.IsSpace p).isEmpty = true
  · rw [if_pos he]
    have : List.dropWhile unicode.IsSpace p = [] := List.isEmpty_iff.mp he
    rw [this]
    simp [List.dropWhile_cons, h]
  · rw [if_neg he]
    show List.rdropWhile unicode.IsSpace _ = List.rdropWhile unicode.IsSpace _
    rw [List.rdropWhile_concat_pos _ _ _ h]

theorem map_trim_mapLast_concat (w : Char) (h : unicode.IsSpace w = true) :
    ∀ X : List (List Char), (mapLast (fun p => p ++ [w]) X).map trim = X.map trim
  | [] => rfl
  | [x] => by simp [mapLast, trim_concat_space w h]
  | x :: y :: l => by
    have ih := map_trim_mapLast_concat w h (y :: l)
    simp only [mapLast, List.map_cons] at ih ⊢
    rw [ih]

theorem map_trim_split_trimLeft (s : List Char) :
    (splitChars '.' (trimLeft s)).map trim = (splitChars '.' s).map trim := by
  induction s with
  | nil => rfl
  | cons c cs ih =>
    by_cases hc : unicode.IsSpace c = true
    · have e : trimLeft (c :: cs) = trimLeft cs := by
        simp [trimLeft, List.dropWhile_cons, hc]
      obtain ⟨p, ps, hp, hcp⟩ := splitChars_cons_ne '.' c cs (IsSpace_ne_dot hc)
      rw [e, ih, hcp, hp]
      simp [trim_cons_space c hc]
    · have e : trimLeft (c :: cs) = c :: cs := by
        simp [trimLeft, List.dropWhile_cons, hc]
      rw [e]

theorem map_trim_split_trimRight (s : List Char) :
    (splitChars '.' (trimRight s)).map trim = (splitChars '.' s).map trim := by
  induction s using List.reverseRecOn with
  | nil => rfl
  | append_singleton cs c ih =>
    by_cases hc : unicode.IsSpace c = true
    · have e : trimRight (cs ++ [c]) = trimRight cs :=
        List.rdropWhile_concat_pos _ _ _ hc
      rw [e, ih, splitChars_concat_ne '.' c (IsSpace_ne_dot hc), map_trim_mapLast_concat c hc]
    · have e : trimRight (cs ++ [c]) = cs ++ [c] :=
        List.rdropWhile_concat_neg _ _ _ hc
      rw [e]

theorem map_trim_split_trim (s : List Char) :
    (splitChars '.' (trim s)).map trim = (splitChars '.' s).map trim := by
  have h : trim s = trimRight (trimLeft s) := rfl
  rw [h, map_trim_split_trimRight, map_trim_split_trimLeft]

theorem splitChars_of_not_mem (sep : Char) :
    ∀ s : List Char, (∀ c ∈ s, c ≠ sep) → splitChars sep s = [s]
  | [], _ => rfl
  | c :: cs, h => by
    have hc : c ≠ sep := h c (List.mem_cons_self _ _)
    have ih := splitChars_of_not_mem sep cs (fun x hx => h x (List.mem_cons_of_mem _ hx))
    obtain ⟨p, ps, hp, hcp⟩ := splitChars_cons_ne sep c cs hc
    rw [hcp]
    rw [ih] at hp
    simp only [List.cons.injEq] at hp
    obtain ⟨rfl, rfl⟩ := hp
    rfl

theorem map_TrimSpace_Split (version : String) :
    (Split (TrimSpace version) '.').map TrimSpace = (Split version '.').map TrimSpace := by
  have h := map_trim_split_trim version.data
  simp only [Split, TrimSpace, List.map_map]
  have hf : (TrimSpace ∘ String.mk) = (String.mk ∘ trim) := by
    funext l; rfl
  show List.map (TrimSpace ∘ String.mk) _ = List.map (TrimSpace ∘ String.mk) _
  rw [hf, ← List.map_map, ← List.map_map]
  exact congrArg _ h

end strings

/-! ## Facts about `ParseVersion` and `CompareVersions` -/

namespace utils

theorem parseComponents_length (components : List String) :
    ∀ (i : Nat) (parts : List Int),
      (parseComponents components i parts).1.length = parts.length := by
  induction components with
  | nil => intro i parts; rfl
  | cons component rest ih =>
    intro i parts
    unfold parseComponents
    rcases h : strconv.Atoi (strings.TrimSpace component) with ⟨num, _ | e⟩
    · by_cases hn : num < 0
      · simp [hn]
      · simp [hn, ih]
    · simp

theorem ParseVersion_length (version : String) : (ParseVersion version).1.length = 3 := by
  unfold ParseVersion
  by_cases h : (strings.Split (strings.TrimSpace version) '.').length ≠ 3
  · rw [if_pos h]; rfl
  · rw [if_neg h, parseComponents_length]; rfl

theorem ParseVersion_triple (version : String) :
    ∃ a b c : Int, (ParseVersion version).1 = [a, b, c] := by
  have h := ParseVersion_length version
  match hp : (ParseVersion version).1, h with
  | [a, b, c], _ => exact ⟨a, b, c, rfl⟩

theorem compareParts_triple (a1 b1 c1 a2 b2 c2 : Int) :
    compareParts [a1, b1, c1] [a2, b2, c2] [0, 1, 2] =
      if a1 < a2 then -1 else if a1 > a2 then 1
      else if b1 < b2 then -1 else if b1 > b2 then 1
      else if c1 < c2 then -1 else if c1 > c2 then 1 else 0 := by
  simp [compareParts]

theorem compareParts_nonpos_iff (a1 b1 c1 a2 b2 c2 : Int) :
    compareParts [a1, b1, c1] [a2, b2, c2] [0, 1, 2] ≤ 0 ↔
      (a1 < a2 ∨ (a1 = a2 ∧ (b1 < b2 ∨ (b1 = b2 ∧ c1 ≤ c2)))) := by
  rw [compareParts_triple]
  split_ifs <;> omega

theorem CompareVersions_ok (v1 v2 : String) (p1 p2 : List Int)
    (h1 : ParseVersion v1 = (p1, none)) (h2 : ParseVersion v2 = (p2, none)) :
    CompareVersions v1 v2 = (compareParts p1 p2 [0, 1, 2], none) := by
  simp [CompareVersions, h1, h2]

theorem CompareVersions_err_iff (v1 v2 : String) :
    (CompareVersions v1 v2).2 ≠ none ↔
      ((ParseVersion v1).2 ≠ none ∨ (ParseVersion v2).2 ≠ none) := by
  unfold CompareVersions
  rcases h1 : ParseVersion v1 with ⟨p1, _ | e1⟩ <;>
    rcases h2 : ParseVersion v2 with ⟨p2, _ | e2⟩ <;> simp

theorem CompareVersions_err_result (v1 v2 : String)
    (h : (CompareVersions v1 v2).2 ≠ none) : (CompareVersions v1 v2).1 = 0 := by
  unfold CompareVersions at h ⊢
  rcases h1 : ParseVersion v1 with ⟨p1, _ | e1⟩ <;>
    rcases h2 : ParseVersion v2 with ⟨p2, _ | e2⟩ <;> simp_all

theorem parseComponents_ok_iff (components : List String) :
    ∀ (i : Nat) (parts : List Int),
      (parseComponents components i parts).2 = none ↔
        ∀ t ∈ components.map strings.TrimSpace,
          (strconv.Atoi t).2 = none ∧ 0 ≤ (strconv.Atoi t).1 := by
  induction components with
  | nil => intro i parts; simp [parseComponents]
  | cons component rest ih =>
    intro i parts
    unfold parseComponents
    rcases h : strconv.Atoi (strings.TrimSpace component) with ⟨num, _ | e⟩
    · by_cases hn : num < 0
      · simp [hn, h]
      · simp only [hn, if_false, ih, List.map_cons, List.mem_cons, forall_eq_or_imp, h,
          true_and]
        constructor
        · intro hr; exact ⟨by omega, hr⟩
        · intro hr; exact hr.2
    · simp [h]

theorem ParseVersion_ok_iff (version : String) :
    (ParseVersion version).2 = none ↔
      ((strings.Split version '.').length = 3 ∧
        ∀ c ∈ strings.Split version '.',
          (strconv.Atoi (strings.TrimSpace c)).2 = none ∧
            0 ≤ (strconv.Atoi (strings.TrimSpace c)).1) := by
  have hmap := strings.map_TrimSpace_Split version
  have hlen : (strings.Split (strings.TrimSpace version) '.').length =
      (strings.Split version '.').length := by
    have := congrArg List.length hmap
    simpa using this
  unfold ParseVersion
  by_cases h : (strings.Split version '.').length = 3
  · have h' : ¬ (strings.Split (strings.TrimSpace version) '.').length ≠ 3 := by
      rw [hlen]; simpa using h
    rw [if_neg h', parseComponents_ok_iff, hmap]
    simp [h]
  · have h' : (strings.Split (strings.TrimSpace version) '.').length ≠ 3 := by
      rw [hlen]; exact h
    rw [if_pos h']
    simp [h]

theorem Split_of_all_space (version : String)
    (h : ∀ c ∈ version.data, unicode.IsSpace c = true) :
    strings.Split version '.' = [version] := by
  unfold strings.Split
  rw [strings.splitChars_of_not_mem '.' version.data
    (fun c hc => strings.IsSpace_ne_dot (h c hc))]
  rfl

end utils

/-! ## Facts about the decimal rendering of a number -/

namespace strconv

theorem digitVal_digitChar (m : Nat) (h : m < 10) : digitVal (Nat.digitChar m) = some m := by
  interval_cases m <;> rfl

theorem parseDigits_cons (c : Char) (cs : List Char) (acc : Nat) :
    parseDigits (c :: cs) acc =
      match digitVal c with
      | none => none
      | some d => parseDigits cs (acc * 10 + d) := rfl

theorem parseDigits_toDigitsCore :
    ∀ (fuel n : Nat) (ds : List Char), n < fuel →
      parseDigits (Nat.toDigitsCore 10 fuel n ds) 0 = parseDigits ds n := by
  intro fuel
  induction fuel with
  | zero => intro n ds h; omega
  | succ fuel ih =>
    intro n ds h
    unfold Nat.toDigitsCore
    dsimp only
    by_cases h0 : n / 10 = 0
    · rw [if_pos h0]
      have hn : n < 10 := by omega
      have hm : n % 10 = n := Nat.mod_eq_of_lt hn
      have hdv := digitVal_digitChar (n % 10) (Nat.mod_lt n (by decide))
      rw [parseDigits_cons, hdv]
      dsimp only
      rw [hm, Nat.zero_mul, Nat.zero_add]
    · rw [if_neg h0, ih (n / 10) _ (by omega)]
      have hd : n / 10 * 10 + n % 10 = n := by omega
      have hdv := digitVal_digitChar (n % 10) (Nat.mod_lt n (by decide))
      rw [parseDigits_cons, hdv]
      dsimp only
      rw [hd]

theorem parseDigits_toDigits (n : Nat) : parseDigits (Nat.toDigits 10 n) 0 = some n := by
  unfold Nat.toDigits
  rw [parseDigits_toDigitsCore (n + 1) n [] (by omega)]
  rfl

theorem parseDigits_digits :
    ∀ (l : List Char) (acc v : Nat), parseDigits l acc = some v →
      ∀ c ∈ l, 48 ≤ c.toNat ∧ c.toNat ≤ 57 := by
  intro l
  induction l with
  | nil => intro acc v _ c hc; simp at hc
  | cons x xs ih =>
    intro acc v h c hc
    rw [parseDigits_cons] at h
    unfold digitVal at h
    by_cases hx : '0'.toNat ≤ x.toNat ∧ x.toNat ≤ '9'.toNat
    · rcases List.mem_cons.mp hc with rfl | hc
      · exact hx
      · rw [if_pos hx] at h
        exact ih _ _ h c hc
    · rw [if_neg hx] at h
      exact absurd h (by simp)

theorem toDigitsCore_ne_nil :
    ∀ (fuel n : Nat) (ds : List Char), 0 < fuel → Nat.toDigitsCore 10 fuel n ds ≠ [] := by
  intro fuel
  induction fuel with
  | zero => intro n ds h; omega
  | succ fuel ih =>
    intro n ds _
    unfold Nat.toDigitsCore
    dsimp only
    split_ifs with h0
    · simp
    · cases fuel with
      | zero => simp [Nat.toDigitsCore]
      | succ k => exact ih _ _ (by omega)

theorem toDigits_ne_nil (n : Nat) : Nat.toDigits 10 n ≠ [] :=
  toDigitsCore_ne_nil (n + 1) n [] (by omega)

theorem toDigits_digits (n : Nat) :
    ∀ c ∈ Nat.toDigits 10 n, 48 ≤ c.toNat ∧ c.toNat ≤ 57 :=
  parseDigits_digits _ 0 n (parseDigits_toDigits n)

theorem digit_not_space (c : Char) (h : 48 ≤ c.toNat ∧ c.toNat ≤ 57) :
    unicode.IsSpace c = false := by
  obtain ⟨h1, h2⟩ := h
  simp only [unicode.IsSpace, Bool.or_eq_false_iff, Bool.and_eq_false_iff, beq_eq_false_iff_ne,
    decide_eq_false_iff_not, ne_eq]
  omega

theorem digit_ne (c d : Char) (h : 48 ≤ c.toNat ∧ c.toNat ≤ 57)
    (hd : d.toNat < 48) : c ≠ d := by
  rintro rfl
  omega

/-- Go `strconv.Atoi` reads the decimal rendering of a number in the range of `int` as
that number. -/
theorem Atoi_toDigits (n : Nat) (h : n < 2 ^ (intSize - 1)) :
    Atoi ⟨Nat.toDigits 10 n⟩ = ((n : Int), none) := by
  have hp := parseDigits_toDigits n
  have hd := toDigits_digits n
  rcases hl : Nat.toDigits 10 n with _ | ⟨c, cs⟩
  · exact absurd hl (toDigits_ne_nil n)
  · rw [hl] at hp hd
    have hc := hd c (List.mem_cons_self _ _)
    have hminus : c ≠ '-' := digit_ne c '-' hc (by decide)
    have hplus : c ≠ '+' := digit_ne c '+' hc (by decide)
    unfold Atoi
    simp only [hminus, hplus, if_false, hp]
    have : ¬ n ≥ 2 ^ (intSize - 1) := by omega
    simp [this]

end strconv

/-! ## Facts about versions padded with white space -/

namespace strings

theorem trimLeft_append_space (w x : List Char) (hw : ∀ c ∈ w, unicode.IsSpace c = true) :
    trimLeft (w ++ x) = trimLeft x := by
  unfold trimLeft
  exact List.dropWhile_append_of_pos hw

theorem trimRight_append_space (x w : List Char) (hw : ∀ c ∈ w, unicode.IsSpace c = true) :
    trimRight (x ++ w) = trimRight x := by
  unfold trimRight
  rw [List.reverse_append,
    List.dropWhile_append_of_pos (fun c hc => hw c (List.mem_reverse.mp hc))]

theorem trimRight_of_no_space (d : List Char) (hd : ∀ c ∈ d, unicode.IsSpace c = false) :
    trimRight d = d := by
  show List.rdropWhile unicode.IsSpace d = d
  rw [List.rdropWhile_eq_self_iff]
  intro hl
  rw [hd _ (List.getLast_mem hl)]
  simp

/-- Trimming a text without white space that is padded with white space gives
the text back. -/
theorem trim_padded (w d w' : List Char) (hw : ∀ c ∈ w, unicode.IsSpace c = true)
    (hw' : ∀ c ∈ w', unicode.IsSpace c = true) (hd : ∀ c ∈ d, unicode.IsSpace c = false) :
    trim (w ++ d ++ w') = d := by
  unfold trim
  rw [List.append_assoc, trimLeft_append_space w _ hw]
  cases d with
  | nil =>
    have h1 : trimLeft w' = [] := by
      unfold trimLeft
      exact List.dropWhile_eq_nil_iff.mpr hw'
    rw [List.nil_append, h1]
    rfl
  | cons c cs =>
    have hc : unicode.IsSpace c = false := hd c (List.mem_cons_self _ _)
    have h1 : trimLeft (c :: cs ++ w') = c :: cs ++ w' := by
      unfold trimLeft
      rw [List.cons_append, List.dropWhile_cons_of_neg (by simp [hc])]
    rw [h1, trimRight_append_space _ _ hw', trimRight_of_no_space _ hd]

theorem splitChars_append_sep (sep : Char) :
    ∀ (p rest : List Char), (∀ c ∈ p, c ≠ sep) →
      splitChars sep (p ++ sep :: rest) = p :: splitChars sep rest
  | [], rest, _ => by
    conv_lhs => unfold splitChars
    simp
  | c :: cs, rest, h => by
    have hc : c ≠ sep := h c (List.mem_cons_self _ _)
    have ih := splitChars_append_sep sep cs rest (fun x hx => h x (List.mem_cons_of_mem _ hx))
    obtain ⟨q, qs, hq, hcq⟩ := splitChars_cons_ne sep c (cs ++ sep :: rest) hc
    rw [List.cons_append, hcq]
    rw [ih] at hq
    simp only [List.cons.injEq] at hq
    obtain ⟨rfl, rfl⟩ := hq
    rfl

theorem splitChars_three (x0 x1 x2 : List Char) (h0 : ∀ c ∈ x0, c ≠ '.')
    (h1 : ∀ c ∈ x1, c ≠ '.') (h2 : ∀ c ∈ x2, c ≠ '.') :
    splitChars '.' (x0 ++ '.' :: (x1 ++ '.' :: x2)) = [x0, x1, x2] := by
  rw [splitChars_append_sep '.' x0 _ h0, splitChars_append_sep '.' x1 _ h1,
    splitChars_of_not_mem '.' x2 h2]

end strings

namespace utils

theorem parseComponents_three (components : List String) (t0 t1 t2 : String) (n0 n1 n2 : Int)
    (hc : components.map strings.TrimSpace = [t0, t1, t2])
    (a0 : strconv.Atoi t0 = (n0, none)) (a1 : strconv.Atoi t1 = (n1, none))
    (a2 : strconv.Atoi t2 = (n2, none)) (p0 : 0 ≤ n0) (p1 : 0 ≤ n1) (p2 : 0 ≤ n2) :
    parseComponents components 0 [0, 0, 0] = ([n0, n1, n2], none) := by
  match components, hc with
  | [x, y, z], hc =>
    simp only [List.map_cons, List.map_nil, List.cons.injEq, and_true] at hc
    obtain ⟨hx, hy, hz⟩ := hc
    have q0 : ¬ n0 < 0 := by omega
    have q1 : ¬ n1 < 0 := by omega
    have q2 : ¬ n2 < 0 := by omega
    simp [parseComponents, hx, hy, hz, a0, a1, a2, q0, q1, q2]

theorem ParseVersion_of_components (version : String) (t0 t1 t2 : String) (n0 n1 n2 : Int)
    (hc : (strings.Split version '.').map strings.TrimSpace = [t0, t1, t2])
    (a0 : strconv.Atoi t0 = (n0, none)) (a1 : strconv.Atoi t1 = (n1, none))
    (a2 : strconv.Atoi t2 = (n2, none)) (p0 : 0 ≤ n0) (p1 : 0 ≤ n1) (p2 : 0 ≤ n2) :
    ParseVersion version = ([n0, n1, n2], none) := by
  have hmap := strings.map_TrimSpace_Split version
  rw [hc] at hmap
  have hlen : (strings.Split (strings.TrimSpace version) '.').length = 3 := by
    have := congrArg List.length hmap
    simpa using this
  unfold ParseVersion
  rw [if_neg (by simp [hlen])]
  exact parseComponents_three _ t0 t1 t2 n0 n1 n2 hmap a0 a1 a2 p0 p1 p2

end utils

namespace utils

/-- The parse of a version whose characters are three decimal renderings, each
padded with white space, between two dots. -/
theorem ParseVersion_padded (version : String) (a b c : Nat)
    (ha : a < 2 ^ (strconv.intSize - 1)) (hb : b < 2 ^ (strconv.intSize - 1))
    (hc : c < 2 ^ (strconv.intSize - 1)) (w0 w1 w2 w3 w4 w5 : List Char)
    (h0 : ∀ x ∈ w0, unicode.IsSpace x = true) (h1 : ∀ x ∈ w1, unicode.IsSpace x = true)
    (h2 : ∀ x ∈ w2, unicode.IsSpace x = true) (h3 : ∀ x ∈ w3, unicode.IsSpace x = true)
    (h4 : ∀ x ∈ w4, unicode.IsSpace x = true) (h5 : ∀ x ∈ w5, unicode.IsSpace x = true)
    (hv : version.data =
      (w0 ++ Nat.toDigits 10 a ++ w1) ++
        '.' :: ((w2 ++ Nat.toDigits 10 b ++ w3) ++ '.' :: (w4 ++ Nat.toDigits 10 c ++ w5))) :
    ParseVersion version = ([(a : Int), (b : Int), (c : Int)], none) := by
  have nodot : ∀ (w d w' : List Char), (∀ x ∈ w, unicode.IsSpace x = true) →
      (∀ x ∈ w', unicode.IsSpace x = true) → (∀ x ∈ d, 48 ≤ x.toNat ∧ x.toNat ≤ 57) →
      ∀ x ∈ w ++ d ++ w', x ≠ '.' := by
    intro w d w' hw hw' hd x hx
    rcases List.mem_append.mp hx with hx | hx
    · rcases List.mem_append.mp hx with hx | hx
      · exact strings.IsSpace_ne_dot (hw x hx)
      · exact strconv.digit_ne x '.' (hd x hx) (by decide)
    · exact strings.IsSpace_ne_dot (hw' x hx)
  have nospace : ∀ n : Nat, ∀ x ∈ Nat.toDigits 10 n, unicode.IsSpace x = false :=
    fun n x hx => strconv.digit_not_space x (strconv.toDigits_digits n x hx)
  have hsplit : strings.Split version '.' =
      [⟨w0 ++ Nat.toDigits 10 a ++ w1⟩, ⟨w2 ++ Nat.toDigits 10 b ++ w3⟩,
        ⟨w4 ++ Nat.toDigits 10 c ++ w5⟩] := by
    unfold strings.Split
    rw [hv, strings.splitChars_three _ _ _
      (nodot w0 _ w1 h0 h1 (strconv.toDigits_digits a))
      (nodot w2 _ w3 h2 h3 (strconv.toDigits_digits b))
      (nodot w4 _ w5 h4 h5 (strconv.toDigits_digits c))]
    rfl
  have htrim : ∀ (w d w' : List Char), (∀ x ∈ w, unicode.IsSpace x = true) →
      (∀ x ∈ w', unicode.IsSpace x = true) → (∀ x ∈ d, unicode.IsSpace x = false) →
      strings.TrimSpace ⟨w ++ d ++ w'⟩ = ⟨d⟩ := by
    intro w d w' hw hw' hd
    show String.mk (strings.trim (w ++ d ++ w')) = ⟨d⟩
    rw [strings.trim_padded w d w' hw hw' hd]
  apply ParseVersion_of_components version ⟨Nat.toDigits 10 a⟩ ⟨Nat.toDigits 10 b⟩
    ⟨Nat.toDigits 10 c⟩ _ _ _ _ (strconv.Atoi_toDigits a ha) (strconv.Atoi_toDigits b hb)
    (strconv.Atoi_toDigits c hc) (Int.ofNat_nonneg a) (Int.ofNat_nonneg b) (Int.ofNat_nonneg c)
  rw [hsplit]
  simp only [List.map_cons, List.map_nil, htrim w0 _ w1 h0 h1 (nospace a),
    htrim w2 _ w3 h2 h3 (nospace b), htrim w4 _ w5 h4 h5 (nospace c)]

end utils

/-! ## Facts about the OIDC-scope runs -/

namespace oidcScopes

theorem getOidcScopeList_events (env : Env) (h : List Event) :
    (getOidcScopeList env h).2 = h ++ [Event.SendGetListRequest] := by
  unfold getOidcScopeList
  rcases env.SendGetListRequest h with e | resp
  · rfl
  · dsimp only
    split_ifs
    · rcases resp.Body with e | body
      · rfl
      · dsimp only
        rcases env.jsonUnmarshal body with e | list <;> rfl
    · rcases env.ErrorCodes resp.StatusCode with _ | msg <;> rfl

theorem GetFileInfo_Join (dir : FilePath) (file : String) :
    (utils.GetFileInfo (filepath.Join dir file)).ResourceName = derivedScopeName file := by
  simp [utils.GetFileInfo, filepath.Join, filepath.Base, derivedScopeName]

theorem GetFileInfo_single (file : String) :
    (utils.GetFileInfo [file]).ResourceName = derivedScopeName file := by
  simp [utils.GetFileInfo, filepath.Base, derivedScopeName]

/-- A loop whose body only appends events that satisfy `Q` only appends such
events. -/
theorem foldl_appends {α : Type} (f : List Event → α → List Event) (Q : Event → Prop)
    (hf : ∀ h x, ∃ evs, f h x = h ++ evs ∧ ∀ e ∈ evs, Q e) :
    ∀ (xs : List α) (h : List Event), ∃ evs, xs.foldl f h = h ++ evs ∧ ∀ e ∈ evs, Q e := by
  intro xs
  induction xs with
  | nil => intro h; exact ⟨[], by simp, by simp⟩
  | cons x xs ih =>
    intro h
    obtain ⟨evs1, h1, q1⟩ := hf h x
    obtain ⟨evs2, h2, q2⟩ := ih (f h x)
    refine ⟨evs1 ++ evs2, ?_, ?_⟩
    · rw [List.foldl_cons, h2, h1, List.append_assoc]
    · intro e he
      rcases List.mem_append.mp he with he | he
      · exact q1 e he
      · exact q2 e he

/-- A loop whose body does nothing on the elements that fail `p` may skip them. -/
theorem foldl_filter_skip {α : Type} (f : List Event → α → List Event) (p : α → Bool)
    (hf : ∀ h x, p x = false → f h x = h) :
    ∀ (xs : List α) (h : List Event), (xs.filter p).foldl f h = xs.foldl f h := by
  intro xs
  induction xs with
  | nil => intro h; rfl
  | cons x xs ih =>
    intro h
    by_cases hp : p x = true
    · rw [List.filter_cons_of_pos hp, List.foldl_cons, List.foldl_cons, ih]
    · have hp' : p x = false := by simpa using hp
      rw [List.filter_cons_of_neg hp, List.foldl_cons, hf h x hp', ih]

theorem isScopeExists_events (env : Env) (h : List Event) (path : FilePath) (scopeName : String) :
    (isScopeExists env h path scopeName).2 = h ∨
      (isScopeExists env h path scopeName).2 = h ++ [Event.SendGetListRequest] := by
  unfold isScopeExists
  rcases env.ReadFile path with e | content
  · exact Or.inl rfl
  · dsimp only
    rcases env.yamlUnmarshal content with e | name
    · exact Or.inl rfl
    · dsimp only
      have hl := getOidcScopeList_events env h
      rcases hg : getOidcScopeList env h with ⟨e | list, h1⟩
      · rw [hg] at hl; exact Or.inr hl
      · rw [hg] at hl; exact Or.inr hl

theorem importOidcScope_events (env : Env) (h : List Event) (scopeName : String)
    (scopeExists : Bool) (path : FilePath) :
    ∃ evs, (importOidcScope env h scopeName scopeExists path).2 = h ++ evs ∧
      ∀ e ∈ evs,
        (∃ data, e = Event.SendImportRequest path data) ∨
        (∃ data, e = Event.SendUpdateRequest scopeName path data) ∨
        (∃ op, e = Event.UpdateSuccessSummary op) ∨
        e = Event.UpdateFailureSummary (utils.GetFileInfo path).ResourceName := by
  unfold importOidcScope
  rcases env.ReadFile path with e | content
  · exact ⟨[], by simp, by simp⟩
  · dsimp only
    cases scopeExists
    · simp only [Bool.not_false, if_true]
      unfold importScope
      rcases env.SendImportRequest h path _ with _ | err
      · exact ⟨_, by simp only [List.append_assoc]; rfl, by simp⟩
      · exact ⟨_, by simp only [List.append_assoc]; rfl, by simp⟩
    · simp only [Bool.not_true, Bool.false_eq_true, if_false]
      unfold updateScope
      rcases env.SendUpdateRequest h scopeName path _ with _ | err
      · exact ⟨_, by simp only [List.append_assoc]; rfl, by simp⟩
      · exact ⟨_, by simp only [List.append_assoc]; rfl, by simp⟩

theorem importFile_excluded (env : Env) (dir : FilePath) (h : List Event) (file : String)
    (hex : derivedScopeName file ∈ env.OidcScopeConfigs) : importFile env dir h file = h := by
  unfold importFile
  have : utils.IsResourceExcluded (strings.TrimSuffix file (filepath.Ext file))
      env.OidcScopeConfigs = true := by
    simpa [utils.IsResourceExcluded, derivedScopeName] using hex
  simp [this]

theorem importFile_events (env : Env) (dir : FilePath) (name : String)
    (hex : name ∈ env.OidcScopeConfigs) (h : List Event) (file : String) :
    ∃ evs, importFile env dir h file = h ++ evs ∧ ∀ e ∈ evs, e.concerns name = false := by
  by_cases hf : derivedScopeName file ∈ env.OidcScopeConfigs
  · exact ⟨[], by simp [importFile_excluded env dir h file hf], by simp⟩
  · have hne : derivedScopeName file ≠ name := fun heq => hf (heq ▸ hex)
    unfold importFile
    have hx : utils.IsResourceExcluded (strings.TrimSuffix file (filepath.Ext file))
        env.OidcScopeConfigs = false := by
      simpa [utils.IsResourceExcluded, derivedScopeName] using hf
    simp only [hx, Bool.not_false, if_true]
    have hev := isScopeExists_events env h (filepath.Join dir file)
      (strings.TrimSuffix file (filepath.Ext file))
    rcases hs : isScopeExists env h (filepath.Join dir file)
      (strings.TrimSuffix file (filepath.Ext file)) with ⟨⟨ex, _ | err⟩, h1⟩
    · rw [hs] at hev
      dsimp only at hev ⊢
      obtain ⟨evs, he, hq⟩ := importOidcScope_events env h1
        (strings.TrimSuffix file (filepath.Ext file)) ex (filepath.Join dir file)
      have hq' : ∀ e ∈ evs, e.concerns name = false := by
        intro e hmem
        rcases hq e hmem with ⟨d, rfl⟩ | ⟨d, rfl⟩ | ⟨op, rfl⟩ | rfl
        · simpa [Event.concerns, GetFileInfo_Join] using hne
        · simp only [Event.concerns, GetFileInfo_Join, Bool.or_eq_false_iff]
          exact ⟨by simpa [derivedScopeName] using hne, by simpa using hne⟩
        · rfl
        · simpa [Event.concerns, GetFileInfo_Join] using hne
      rcases hev with rfl | rfl
      · exact ⟨evs, he, hq'⟩
      · refine ⟨Event.SendGetListRequest :: evs, by rw [he]; simp, ?_⟩
        intro e hmem
        rcases List.mem_cons.mp hmem with rfl | hmem
        · rfl
        · exact hq' e hmem
    · rw [hs] at hev
      dsimp only at hev ⊢
      rcases hev with rfl | rfl
      · exact ⟨[], by simp, by simp⟩
      · exact ⟨[Event.SendGetListRequest], rfl, by simp [Event.concerns]⟩

theorem removeDeployedScope_excluded (env : Env) (localFiles : List String) (h : List Event)
    (scope : oidcScope) (hex : scope.Name ∈ env.OidcScopeConfigs) :
    removeDeployedScope env localFiles h scope = h := by
  unfold removeDeployedScope
  have : utils.IsResourceExcluded scope.Name env.OidcScopeConfigs = true := by
    simpa [utils.IsResourceExcluded] using hex
  simp [this]

theorem removeDeployedScope_events (env : Env) (localFiles : List String) (name : String)
    (hex : name ∈ env.OidcScopeConfigs) (h : List Event) (scope : oidcScope) :
    ∃ evs, removeDeployedScope env localFiles h scope = h ++ evs ∧
      ∀ e ∈ evs, e.concerns name = false := by
  by_cases hf : scope.Name ∈ env.OidcScopeConfigs
  · exact ⟨[], by simp [removeDeployedScope_excluded env localFiles h scope hf], by simp⟩
  · have hne : scope.Name ≠ name := fun heq => hf (heq ▸ hex)
    have hx : utils.IsResourceExcluded scope.Name env.OidcScopeConfigs = false := by
      simpa [utils.IsResourceExcluded] using hf
    unfold removeDeployedScope
    by_cases hloc :
        (localFiles.any fun file => scope.Name == (utils.GetFileInfo [file]).ResourceName) = true
    · rw [if_pos hloc]
      exact ⟨[], by simp, by simp⟩
    · rw [if_neg hloc, hx]
      simp only [Bool.false_eq_true, if_false]
      rcases env.SendDeleteRequest h scope.Name with _ | err
      · exact ⟨_, by simp only [List.append_assoc]; rfl, by simp [Event.concerns, hne]⟩
      · exact ⟨_, by simp only [List.append_assoc]; rfl, by simp [Event.concerns, hne]⟩

theorem removeDeletedDeployedScopes_events (env : Env) (localFiles : List String)
    (name : String) (hex : name ∈ env.OidcScopeConfigs) (h : List Event) :
    ∃ evs, removeDeletedDeployedScopes env h localFiles = h ++ evs ∧
      ∀ e ∈ evs, e.concerns name = false := by
  unfold removeDeletedDeployedScopes
  have hl := getOidcScopeList_events env h
  rcases hg : getOidcScopeList env h with ⟨e | list, h1⟩
  · rw [hg] at hl
    exact ⟨[Event.SendGetListRequest], hl, by simp [Event.concerns]⟩
  · rw [hg] at hl
    dsimp only at hl ⊢
    obtain ⟨evs, he, hq⟩ := foldl_appends (removeDeployedScope env localFiles)
      (fun e => e.concerns name = false)
      (removeDeployedScope_events env localFiles name hex) list h1
    refine ⟨Event.SendGetListRequest :: evs, by rw [he, hl]; simp, ?_⟩
    intro e hmem
    rcases List.mem_cons.mp hmem with rfl | hmem
    · rfl
    · exact hq e hmem

theorem ImportAll_events (env : Env) (inputDirPath : FilePath) (name : String)
    (hex : name ∈ env.OidcScopeConfigs) :
    ∀ e ∈ ImportAll env inputDirPath, e.concerns name = false := by
  have key : ∀ (files : List String) (h : List Event), (∀ e ∈ h, e.concerns name = false) →
      ∀ e ∈ files.foldl (importFile env (filepath.Join inputDirPath env.OIDC_SCOPES)) h,
        e.concerns name = false := by
    intro files h hh e he
    obtain ⟨evs, hev, hq⟩ := foldl_appends
      (importFile env (filepath.Join inputDirPath env.OIDC_SCOPES))
      (fun e => e.concerns name = false)
      (importFile_events env _ name hex) files h
    rw [hev] at he
    rcases List.mem_append.mp he with he | he
    · exact hh e he
    · exact hq e he
  unfold ImportAll
  dsimp only
  split_ifs with hgate hstat hdel
  · simp
  · exact key [] [] (by simp)
  · apply key
    obtain ⟨evs, hev, hq⟩ := removeDeletedDeployedScopes_events env
      (env.ReadDir (filepath.Join inputDirPath env.OIDC_SCOPES)).1 name hex []
    rw [hev]
    simpa using hq
  · exact key _ [] (by simp)

theorem removeDeployedScope_withoutLocalFilesOf (env : Env) (localFiles : List String)
    (name : String) (hex : name ∈ env.OidcScopeConfigs) (h : List Event) (scope : oidcScope) :
    removeDeployedScope env
        (localFiles.filter (fun file => decide (derivedScopeName file ≠ name))) h scope =
      removeDeployedScope env localFiles h scope := by
  by_cases hn : scope.Name = name
  · rw [removeDeployedScope_excluded env _ h scope (hn ▸ hex),
      removeDeployedScope_excluded env _ h scope (hn ▸ hex)]
  · have hany : ((localFiles.filter (fun file => decide (derivedScopeName file ≠ name))).any
          fun file => scope.Name == (utils.GetFileInfo [file]).ResourceName) =
        (localFiles.any fun file => scope.Name == (utils.GetFileInfo [file]).ResourceName) := by
      induction localFiles with
      | nil => rfl
      | cons f fs ih =>
        by_cases hf : derivedScopeName f = name
        · have hne : (scope.Name == (utils.GetFileInfo [f]).ResourceName) = false := by
            rw [GetFileInfo_single, hf]; simpa using hn
          simp only [List.filter_cons, hf, ne_eq, not_true_eq_false, decide_False,
            Bool.false_eq_true, if_false, List.any_cons, hne, Bool.false_or]
          simpa using ih
        · simp only [List.filter_cons, hf, ne_eq, not_false_eq_true, decide_True, if_true,
            List.any_cons]
          rw [show (List.filter (fun file => decide (derivedScopeName file ≠ name)) fs).any
              (fun file => scope.Name == (utils.GetFileInfo [file]).ResourceName) =
              fs.any (fun file => scope.Name == (utils.GetFileInfo [file]).ResourceName) from
            by simpa using ih]
    unfold removeDeployedScope
    rw [hany]

theorem ImportAll_withoutLocalFilesOf (env : Env) (inputDirPath : FilePath) (name : String)
    (hex : name ∈ env.OidcScopeConfigs) :
    ImportAll (env.withoutLocalFilesOf name) inputDirPath = ImportAll env inputDirPath := by
  have hfile : importFile (env.withoutLocalFilesOf name) = importFile env := rfl
  have hrem : ∀ files, removeDeployedScope (env.withoutLocalFilesOf name) files =
      removeDeployedScope env files := fun _ => rfl
  have hlist : getOidcScopeList (env.withoutLocalFilesOf name) = getOidcScopeList env := rfl
  have hskip : ∀ (files : List String) (h : List Event),
      (files.filter (fun file => decide (derivedScopeName file ≠ name))).foldl
          (importFile env (filepath.Join inputDirPath env.OIDC_SCOPES)) h =
        files.foldl (importFile env (filepath.Join inputDirPath env.OIDC_SCOPES)) h := by
    intro files h
    apply foldl_filter_skip
    intro h x hx
    have : derivedScopeName x = name := by simpa using hx
    exact importFile_excluded env _ h x (this ▸ hex)
  have hdelpass : ∀ files : List String,
      removeDeletedDeployedScopes (env.withoutLocalFilesOf name) []
          (files.filter (fun file => decide (derivedScopeName file ≠ name))) =
        removeDeletedDeployedScopes env [] files := by
    intro files
    unfold removeDeletedDeployedScopes
    rw [hlist, hrem]
    rcases getOidcScopeList env [] with ⟨e | list, h1⟩
    · rfl
    · dsimp only
      congr 1
      funext h scope
      exact removeDeployedScope_withoutLocalFilesOf env files name hex h scope
  have e1 : (env.withoutLocalFilesOf name).IsResourceTypeExcluded =
      env.IsResourceTypeExcluded := rfl
  have e2 : (env.withoutLocalFilesOf name).OIDC_SCOPES = env.OIDC_SCOPES := rfl
  have e3 : (env.withoutLocalFilesOf name).StatIsNotExist = env.StatIsNotExist := rfl
  have e4 : (env.withoutLocalFilesOf name).AllowDelete = env.AllowDelete := rfl
  have e5 : ∀ path, ((env.withoutLocalFilesOf name).ReadDir path).1 =
      (env.ReadDir path).1.filter (fun file => decide (derivedScopeName file ≠ name)) :=
    fun _ => rfl
  unfold ImportAll
  rw [hfile, e1, e2, e3, e4]
  dsimp only
  rw [e5]
  split_ifs
  · rfl
  · rfl
  · rw [hdelpass, hskip]
  · exact hskip _ _

/-- A loop whose body appends `g x` for the element `x` appends them all. -/
theorem foldl_flatMap {α : Type} (f : List Event → α → List Event) (g : α → List Event)
    (hf : ∀ h x, f h x = h ++ g x) :
    ∀ (xs : List α) (h : List Event), xs.foldl f h = h ++ xs.flatMap g := by
  intro xs
  induction xs with
  | nil => intro h; simp
  | cons x xs ih =>
    intro h
    rw [List.foldl_cons, ih, hf, List.flatMap_cons, List.append_assoc]

theorem getOidcScopeList_at (env : Env) (h : List Event) (deployed : List oidcScope)
    (hl : (getOidcScopeList env h).1 = .ok deployed) :
    getOidcScopeList env h = (.ok deployed, h ++ [Event.SendGetListRequest]) :=
  Prod.ext hl (getOidcScopeList_events env h)

theorem deployedAt_eq (env : Env) (h : List Event) (deployed : List oidcScope)
    (hl : (getOidcScopeList env h).1 = .ok deployed) : deployedAt env h = deployed := by
  unfold deployedAt
  rw [hl]

theorem removeDeployedScope_ok (env : Env) (localFiles : List String)
    (hexcl : env.OidcScopeConfigs = [])
    (hdelete : ∀ h name, env.SendDeleteRequest h name = none)
    (h : List Event) (scope : oidcScope) :
    removeDeployedScope env localFiles h scope = h ++ deleteEventsOf localFiles scope := by
  have hany : (localFiles.any fun file => scope.Name == (utils.GetFileInfo [file]).ResourceName) =
      hasLocalFile localFiles scope.Name := by
    unfold hasLocalFile
    simp only [GetFileInfo_single]
  unfold removeDeployedScope deleteEventsOf
  rw [hany, hexcl, hdelete]
  cases hasLocalFile localFiles scope.Name <;> simp [utils.IsResourceExcluded]

theorem importFile_at (env : Env) (dir : FilePath)
    (hexcl : env.OidcScopeConfigs = [])
    (hcreate : ∀ h path data, env.SendImportRequest h path data = none)
    (hupdate : ∀ h scopeId path data, env.SendUpdateRequest h scopeId path data = none)
    (h : List Event) (file : String) (deployed : List oidcScope)
    (hl : (getOidcScopeList env h).1 = .ok deployed) :
    oidcScopes.importFile env dir h file = h ++ importEventsOf env deployed dir file := by
  unfold importFile importEventsOf isScopeExists importOidcScope
  rw [hexcl]
  simp only [utils.IsResourceExcluded, List.not_mem_nil, decide_False, Bool.not_false, if_true]
  rcases hr : env.ReadFile (filepath.Join dir file) with e | content
  · simp
  · dsimp only
    rcases hy : env.yamlUnmarshal content with e | name
    · simp
    · dsimp only
      rw [getOidcScopeList_at env h deployed hl]
      dsimp only
      rw [GetFileInfo_Join]
      have hd : (deployed.any fun scope => scope.Name == name) = isDeployed deployed name := rfl
      rw [hd]
      cases isDeployed deployed name
      · simp [importScope, hcreate]
      · simp [updateScope, hupdate, derivedScopeName]

theorem foldl_importFile_reconcileEach (env : Env) (dir : FilePath)
    (hexcl : env.OidcScopeConfigs = [])
    (hlist : ∀ h, ∃ deployed, (getOidcScopeList env h).1 = .ok deployed)
    (hcreate : ∀ h path data, env.SendImportRequest h path data = none)
    (hupdate : ∀ h scopeId path data, env.SendUpdateRequest h scopeId path data = none) :
    ∀ (files : List String) (h : List Event),
      files.foldl (importFile env dir) h = reconcileEach env dir files h := by
  intro files
  induction files with
  | nil => intro h; rfl
  | cons file rest ih =>
    intro h
    obtain ⟨deployed, hl⟩ := hlist h
    rw [List.foldl_cons, ih, importFile_at env dir hexcl hcreate hupdate h file deployed hl]
    conv_rhs => unfold reconcileEach
    rw [deployedAt_eq env h deployed hl]

theorem ImportAll_reconcileEach (env : Env) (inputDirPath : FilePath)
    (hgate : env.IsResourceTypeExcluded = false) (hsync : env.AllowDelete = true)
    (hexcl : env.OidcScopeConfigs = [])
    (hstat : env.StatIsNotExist (filepath.Join inputDirPath env.OIDC_SCOPES) = false)
    (hlist : ∀ h, ∃ deployed, (getOidcScopeList env h).1 = .ok deployed)
    (hcreate : ∀ h path data, env.SendImportRequest h path data = none)
    (hupdate : ∀ h scopeId path data, env.SendUpdateRequest h scopeId path data = none)
    (hdelete : ∀ h name, env.SendDeleteRequest h name = none) :
    ImportAll env inputDirPath =
      reconcileEach env (filepath.Join inputDirPath env.OIDC_SCOPES)
        (env.ReadDir (filepath.Join inputDirPath env.OIDC_SCOPES)).1
        ([Event.SendGetListRequest] ++
          (deployedAt env []).flatMap
            (deleteEventsOf (env.ReadDir (filepath.Join inputDirPath env.OIDC_SCOPES)).1)) := by
  obtain ⟨deployed, hl⟩ := hlist []
  unfold ImportAll
  simp only [hgate, hstat, hsync, Bool.false_eq_true, if_false, if_true]
  rw [foldl_importFile_reconcileEach env _ hexcl hlist hcreate hupdate]
  unfold removeDeletedDeployedScopes
  rw [getOidcScopeList_at env [] deployed hl, deployedAt_eq env [] deployed hl]
  dsimp only
  rw [foldl_flatMap _ _ (removeDeployedScope_ok env _ hexcl hdelete), List.nil_append]

/-- A reading of traces that distributes over concatenation. -/
theorem reading_flatMap_ite {α β : Type} (P : List Event → List β) (hnil : P [] = [])
    (happ : ∀ a b, P (a ++ b) = P a ++ P b) (g : α → List Event) (c : α → Bool) (v : α → β)
    (hg : ∀ x, P (g x) = if c x = true then [v x] else []) :
    ∀ xs : List α, P (xs.flatMap g) = (xs.filter c).map v := by
  intro xs
  induction xs with
  | nil => simpa using hnil
  | cons x xs ih =>
    rw [List.flatMap_cons, happ, ih, hg]
    cases hc : c x <;> simp [hc]

theorem reading_flatMap_nil {α β : Type} (P : List Event → List β) (hnil : P [] = [])
    (happ : ∀ a b, P (a ++ b) = P a ++ P b) (g : α → List Event)
    (hg : ∀ x, P (g x) = []) :
    ∀ xs : List α, P (xs.flatMap g) = [] := by
  intro xs
  induction xs with
  | nil => simpa using hnil
  | cons x xs ih => rw [List.flatMap_cons, happ, ih, hg]; rfl

theorem count_flatMap_ite {α : Type} (e : Event) (g : α → List Event) (c : α → Bool)
    (hg : ∀ x, (g x).count e = if c x = true then 1 else 0) :
    ∀ xs : List α, (xs.flatMap g).count e = (xs.filter c).length := by
  intro xs
  induction xs with
  | nil => rfl
  | cons x xs ih =>
    rw [List.flatMap_cons, List.count_append, ih, hg]
    cases hc : c x <;> simp [hc]; omega

theorem count_flatMap_zero {α : Type} (e : Event) (g : α → List Event)
    (hg : ∀ x, (g x).count e = 0) :
    ∀ xs : List α, (xs.flatMap g).count e = 0 := by
  intro xs
  induction xs with
  | nil => rfl
  | cons x xs ih => rw [List.flatMap_cons, List.count_append, ih, hg]

theorem createRequests_append (a b : List Event) :
    createRequests (a ++ b) = createRequests a ++ createRequests b :=
  List.filterMap_append _ _ _

theorem updateRequests_append (a b : List Event) :
    updateRequests (a ++ b) = updateRequests a ++ updateRequests b :=
  List.filterMap_append _ _ _

theorem deleteRequests_append (a b : List Event) :
    deleteRequests (a ++ b) = deleteRequests a ++ deleteRequests b :=
  List.filterMap_append _ _ _

theorem exportRequests_append (a b : List Event) :
    exportRequests (a ++ b) = exportRequests a ++ exportRequests b :=
  List.filterMap_append _ _ _

theorem failureEntries_append (a b : List Event) :
    failureEntries (a ++ b) = failureEntries a ++ failureEntries b :=
  List.filterMap_append _ _ _

theorem summaryMutations_append (a b : List Event) :
    summaryMutations (a ++ b) = summaryMutations a ++ summaryMutations b :=
  List.filter_append _ _

theorem fileRequests_append (a b : List Event) :
    fileRequests (a ++ b) = fileRequests a ++ fileRequests b :=
  List.filterMap_append _ _ _

theorem successCount_append (operation : utils.Operation) (a b : List Event) :
    successCount operation (a ++ b) = successCount operation a + successCount operation b :=
  List.count_append _ _ _

theorem importEventsOf_cases (env : Env) (deployed : List oidcScope) (dir : FilePath)
    (file : String) :
    (authoritativeName env (filepath.Join dir file) = none ∧
        oidcScopes.importEventsOf env deployed dir file = []) ∨
      (∃ name data, authoritativeName env (filepath.Join dir file) = some name ∧
        isDeployed deployed name = true ∧
        oidcScopes.importEventsOf env deployed dir file =
          [Event.SendGetListRequest,
            Event.SendUpdateRequest (derivedScopeName file) (filepath.Join dir file) data,
            Event.UpdateSuccessSummary utils.Operation.UPDATE]) ∨
      (∃ name data, authoritativeName env (filepath.Join dir file) = some name ∧
        isDeployed deployed name = false ∧
        oidcScopes.importEventsOf env deployed dir file =
          [Event.SendGetListRequest, Event.SendImportRequest (filepath.Join dir file) data,
            Event.UpdateSuccessSummary utils.Operation.IMPORT]) := by
  unfold importEventsOf authoritativeName
  dsimp only
  rcases hr : env.ReadFile (filepath.Join dir file) with e | content
  · exact Or.inl ⟨rfl, rfl⟩
  · dsimp only
    rcases hy : env.yamlUnmarshal content with e | name
    · exact Or.inl ⟨rfl, rfl⟩
    · dsimp only
      by_cases hd : isDeployed deployed name = true
      · exact Or.inr (Or.inl ⟨name, _, rfl, hd, by rw [if_pos hd]⟩)
      · exact Or.inr (Or.inr ⟨name, _, rfl, by simpa using hd, by rw [if_neg hd]⟩)

theorem deleteEventsOf_cases (files : List String) (scope : oidcScope) :
    (hasLocalFile files scope.Name = true ∧ deleteEventsOf files scope = []) ∨
      (hasLocalFile files scope.Name = false ∧
        deleteEventsOf files scope =
          [Event.SendDeleteRequest scope.Name,
            Event.UpdateSuccessSummary utils.Operation.DELETE]) := by
  unfold deleteEventsOf
  cases hasLocalFile files scope.Name <;> simp

/-- The readings of a delete-sync pass in which every delete request succeeds
and nothing is excluded. -/
theorem deletePass_readings (files : List String) (deployed : List oidcScope) :
    deleteRequests ([Event.SendGetListRequest] ++ deployed.flatMap (deleteEventsOf files)) =
        (deployed.filter (fun scope => !hasLocalFile files scope.Name)).map
          (fun scope => scope.Name) ∧
      successCount utils.Operation.DELETE
          ([Event.SendGetListRequest] ++ deployed.flatMap (deleteEventsOf files)) =
        (deployed.filter (fun scope => !hasLocalFile files scope.Name)).length ∧
      createRequests ([Event.SendGetListRequest] ++ deployed.flatMap (deleteEventsOf files)) =
        [] ∧
      updateRequests ([Event.SendGetListRequest] ++ deployed.flatMap (deleteEventsOf files)) =
        [] ∧
      fileRequests ([Event.SendGetListRequest] ++ deployed.flatMap (deleteEventsOf files)) =
        [] ∧
      failureEntries ([Event.SendGetListRequest] ++ deployed.flatMap (deleteEventsOf files)) =
        [] ∧
      successCount utils.Operation.IMPORT
          ([Event.SendGetListRequest] ++ deployed.flatMap (deleteEventsOf files)) = 0 ∧
      successCount utils.Operation.UPDATE
          ([Event.SendGetListRequest] ++ deployed.flatMap (deleteEventsOf files)) = 0 ∧
      successCount utils.Operation.EXPORT
          ([Event.SendGetListRequest] ++ deployed.flatMap (deleteEventsOf files)) = 0 := by
  have dd : ∀ scope, deleteRequests (deleteEventsOf files scope) =
      if (!hasLocalFile files scope.Name) = true then [scope.Name] else [] := by
    intro scope
    rcases deleteEventsOf_cases files scope with ⟨hl, he⟩ | ⟨hl, he⟩ <;> rw [he, hl] <;> rfl
  have dsd : ∀ scope, (deleteEventsOf files scope).count
      (Event.UpdateSuccessSummary utils.Operation.DELETE) =
      if (!hasLocalFile files scope.Name) = true then 1 else 0 := by
    intro scope
    rcases deleteEventsOf_cases files scope with ⟨hl, he⟩ | ⟨hl, he⟩ <;> rw [he, hl] <;>
      simp [List.count_cons]
  have dc : ∀ scope, createRequests (deleteEventsOf files scope) = [] := by
    intro scope
    rcases deleteEventsOf_cases files scope with ⟨_, he⟩ | ⟨_, he⟩ <;> rw [he] <;> rfl
  have du : ∀ scope, updateRequests (deleteEventsOf files scope) = [] := by
    intro scope
    rcases deleteEventsOf_cases files scope with ⟨_, he⟩ | ⟨_, he⟩ <;> rw [he] <;> rfl
  have dr : ∀ scope, fileRequests (deleteEventsOf files scope) = [] := by
    intro scope
    rcases deleteEventsOf_cases files scope with ⟨_, he⟩ | ⟨_, he⟩ <;> rw [he] <;> rfl
  have df : ∀ scope, failureEntries (deleteEventsOf files scope) = [] := by
    intro scope
    rcases deleteEventsOf_cases files scope with ⟨_, he⟩ | ⟨_, he⟩ <;> rw [he] <;> rfl
  have dso : ∀ op, op ≠ utils.Operation.DELETE → ∀ scope,
      (deleteEventsOf files scope).count (Event.UpdateSuccessSummary op) = 0 := by
    intro op hop scope
    rcases deleteEventsOf_cases files scope with ⟨_, he⟩ | ⟨_, he⟩ <;> rw [he]
    · rfl
    · cases op <;> first | exact absurd rfl hop | simp [List.count_cons]
  refine ⟨?_, ?_, ?_, ?_, ?_, ?_, ?_, ?_, ?_⟩
  · rw [deleteRequests_append, reading_flatMap_ite _ rfl deleteRequests_append _ _ _ dd]
    rfl
  · rw [successCount_append]
    unfold successCount
    rw [count_flatMap_ite _ _ _ dsd]
    simp
  · rw [createRequests_append, reading_flatMap_nil _ rfl createRequests_append _ dc]; rfl
  · rw [updateRequests_append, reading_flatMap_nil _ rfl updateRequests_append _ du]; rfl
  · rw [fileRequests_append, reading_flatMap_nil _ rfl fileRequests_append _ dr]; rfl
  · rw [failureEntries_append, reading_flatMap_nil _ rfl failureEntries_append _ df]; rfl
  · rw [successCount_append]
    unfold successCount
    rw [count_flatMap_zero _ _ (dso _ (by decide))]
    simp
  · rw [successCount_append]
    unfold successCount
    rw [count_flatMap_zero _ _ (dso _ (by decide))]
    simp
  · rw [successCount_append]
    unfold successCount
    rw [count_flatMap_zero _ _ (dso _ (by decide))]
    simp

/-- The readings of what the import loop adds for one local file. -/
theorem importEventsOf_readings (env : Env) (deployed : List oidcScope) (dir : FilePath)
    (file : String) :
    deleteRequests (importEventsOf env deployed dir file) = [] ∧
      failureEntries (importEventsOf env deployed dir file) = [] ∧
      successCount utils.Operation.DELETE (importEventsOf env deployed dir file) = 0 ∧
      successCount utils.Operation.EXPORT (importEventsOf env deployed dir file) = 0 ∧
      fileRequests (importEventsOf env deployed dir file) =
        (if (authoritativeName env (filepath.Join dir file)).isSome = true then
          [filepath.Join dir file] else []) ∧
      successCount utils.Operation.IMPORT (importEventsOf env deployed dir file) =
        (createRequests (importEventsOf env deployed dir file)).length ∧
      successCount utils.Operation.UPDATE (importEventsOf env deployed dir file) =
        (updateRequests (importEventsOf env deployed dir file)).length := by
  rcases importEventsOf_cases env deployed dir file with
    ⟨ha, he⟩ | ⟨name, data, ha, _, he⟩ | ⟨name, data, ha, _, he⟩
  · rw [he, ha]
    exact ⟨rfl, rfl, rfl, rfl, rfl, rfl, rfl⟩
  · rw [he, ha]
    refine ⟨rfl, rfl, ?_, ?_, rfl, ?_, ?_⟩ <;>
      simp [successCount, List.count_cons, createRequests, updateRequests]
  · rw [he, ha]
    refine ⟨rfl, rfl, ?_, ?_, rfl, ?_, ?_⟩ <;>
      simp [successCount, List.count_cons, createRequests, updateRequests]

/-- For a local file with the authoritative name `name`, the import loop adds a
create request when `name` is not among the scopes listed, an update request
when it is. -/
theorem importEventsOf_decision (env : Env) (deployed : List oidcScope) (dir : FilePath)
    (file name : String) (ha : authoritativeName env (filepath.Join dir file) = some name) :
    createRequests (importEventsOf env deployed dir file) =
        (if isDeployed deployed name = true then [] else [filepath.Join dir file]) ∧
      updateRequests (importEventsOf env deployed dir file) =
        (if isDeployed deployed name = true then
          [(derivedScopeName file, filepath.Join dir file)] else []) := by
  rcases importEventsOf_cases env deployed dir file with
    ⟨ha', _⟩ | ⟨name', data, ha', hdep, he⟩ | ⟨name', data, ha', hdep, he⟩
  · rw [ha] at ha'; exact absurd ha' (by simp)
  · rw [ha] at ha'
    obtain rfl : name = name' := Option.some.inj ha'
    rw [he, hdep]
    exact ⟨rfl, rfl⟩
  · rw [ha] at ha'
    obtain rfl : name = name' := Option.some.inj ha'
    rw [he, hdep]
    exact ⟨rfl, rfl⟩

/-- The readings of the import loop in which every request succeeds, after the
events `h`. -/
theorem reconcileEach_readings (env : Env) (dir : FilePath) :
    ∀ (files : List String) (h : List Event),
      deleteRequests (reconcileEach env dir files h) = deleteRequests h ∧
        failureEntries (reconcileEach env dir files h) = failureEntries h ∧
        successCount utils.Operation.DELETE (reconcileEach env dir files h) =
          successCount utils.Operation.DELETE h ∧
        successCount utils.Operation.EXPORT (reconcileEach env dir files h) =
          successCount utils.Operation.EXPORT h ∧
        fileRequests (reconcileEach env dir files h) =
          fileRequests h ++
            (files.filter
              (fun file => (authoritativeName env (filepath.Join dir file)).isSome)).map
              (fun file => filepath.Join dir file) ∧
        successCount utils.Operation.IMPORT (reconcileEach env dir files h) +
            (createRequests h).length =
          successCount utils.Operation.IMPORT h +
            (createRequests (reconcileEach env dir files h)).length ∧
        successCount utils.Operation.UPDATE (reconcileEach env dir files h) +
            (updateRequests h).length =
          successCount utils.Operation.UPDATE h +
            (updateRequests (reconcileEach env dir files h)).length := by
  intro files
  induction files with
  | nil =>
    intro h
    simp [reconcileEach]
  | cons file rest ih =>
    intro h
    obtain ⟨r1, r2, r3, r4, r5, r6, r7⟩ :=
      ih (h ++ importEventsOf env (deployedAt env h) dir file)
    obtain ⟨s1, s2, s3, s4, s5, s6, s7⟩ :=
      oidcScopes.importEventsOf_readings env (deployedAt env h) dir file
    have hstep : reconcileEach env dir (file :: rest) h =
        reconcileEach env dir rest (h ++ importEventsOf env (deployedAt env h) dir file) := rfl
    rw [hstep]
    refine ⟨?_, ?_, ?_, ?_, ?_, ?_, ?_⟩
    · rw [r1, deleteRequests_append, s1, List.append_nil]
    · rw [r2, failureEntries_append, s2, List.append_nil]
    · rw [r3, successCount_append, s3, Nat.add_zero]
    · rw [r4, successCount_append, s4, Nat.add_zero]
    · rw [r5, fileRequests_append, s5, List.append_assoc]
      cases hsome : (authoritativeName env (filepath.Join dir file)).isSome <;> simp [hsome]
    · rw [successCount_append, createRequests_append, List.length_append] at r6
      omega
    · rw [successCount_append, updateRequests_append, List.length_append] at r7
      omega

theorem exportOidcScope_events (env : Env) (h : List Event) (name : String) (dir : FilePath)
    (format : String) :
    ∃ fileType evs, (exportOidcScope env h name dir format).2 =
        h ++ Event.SendExportRequest name fileType :: evs ∧
      (evs = [] ∨ ∃ path data, evs = [Event.WriteFile path data]) := by
  unfold exportOidcScope
  dsimp only
  refine ⟨if format = "json" then env.MEDIA_TYPE_JSON
    else if format = "xml" then env.MEDIA_TYPE_XML else env.MEDIA_TYPE_YAML, ?_⟩
  rcases env.SendExportRequest h name _ with e | resp
  · exact ⟨[], rfl, Or.inl rfl⟩
  · dsimp only
    rcases env.ParseMediaType resp.ContentDisposition with e | params
    · exact ⟨[], rfl, Or.inl rfl⟩
    · dsimp only
      rcases resp.Body with e | body
      · exact ⟨[], rfl, Or.inl rfl⟩
      · dsimp only
        rcases env.ProcessExportedContent _ body _ with e | modifiedFile
        · exact ⟨[], rfl, Or.inl rfl⟩
        · dsimp only
          rcases env.WriteFile _ _ modifiedFile with _ | err
          · exact ⟨[Event.WriteFile (filepath.Join dir (params "filename")) modifiedFile],
              by simp, Or.inr ⟨_, _, rfl⟩⟩
          · exact ⟨[Event.WriteFile (filepath.Join dir (params "filename")) modifiedFile],
              by simp, Or.inr ⟨_, _, rfl⟩⟩

theorem exportOidcScope_readings (env : Env) (h : List Event) (name : String) (dir : FilePath)
    (format : String) :
    exportRequests (exportOidcScope env h name dir format).2 = exportRequests h ++ [name] ∧
      summaryMutations (exportOidcScope env h name dir format).2 = summaryMutations h := by
  obtain ⟨fileType, evs, he, hevs⟩ := exportOidcScope_events env h name dir format
  rw [he, exportRequests_append, summaryMutations_append]
  rcases hevs with rfl | ⟨path, data, rfl⟩
  · exact ⟨rfl, by simp [summaryMutations, Event.isSummary]⟩
  · exact ⟨rfl, by simp [summaryMutations, Event.isSummary]⟩

theorem exportScope_excluded (env : Env) (dir : FilePath) (format : String) (h : List Event)
    (scope : oidcScope)
    (hex : utils.IsResourceExcluded scope.Name env.OidcScopeConfigs = true) :
    exportScope env dir format h scope = h := by
  unfold exportScope
  simp [hex]

theorem exportScope_attempt (env : Env) (dir : FilePath) (format : String) (h : List Event)
    (scope : oidcScope)
    (hex : utils.IsResourceExcluded scope.Name env.OidcScopeConfigs = false) :
    exportScope env dir format h scope =
      (exportOidcScope env h scope.Name dir format).2 ++
        [if (exportOidcScope env h scope.Name dir format).1 = none then
            Event.UpdateSuccessSummary utils.Operation.EXPORT
          else Event.UpdateFailureSummary scope.Name] := by
  unfold exportScope
  simp only [hex, Bool.not_false, if_true]
  rcases exportOidcScope env h scope.Name dir format with ⟨_ | err, h1⟩ <;> simp

theorem foldl_exportScope (env : Env) (dir : FilePath) (format : String) :
    ∀ (scopes : List oidcScope) (h : List Event),
      scopes.foldl (exportScope env dir format) h =
        attemptEach env dir format
          ((scopes.filter
            (fun scope => !utils.IsResourceExcluded scope.Name env.OidcScopeConfigs)).map
            (fun scope => scope.Name)) h := by
  intro scopes
  induction scopes with
  | nil => intro h; rfl
  | cons scope rest ih =>
    intro h
    rw [List.foldl_cons, ih]
    cases hex : utils.IsResourceExcluded scope.Name env.OidcScopeConfigs
    · rw [exportScope_attempt env dir format h scope hex]
      simp [hex, attemptEach]
    · rw [exportScope_excluded env dir format h scope hex]
      simp [hex]

theorem attemptEach_exportRequests (env : Env) (dir : FilePath) (format : String) :
    ∀ (names : List String) (h : List Event),
      exportRequests (attemptEach env dir format names h) = exportRequests h ++ names := by
  intro names
  induction names with
  | nil => intro h; simp [attemptEach]
  | cons name rest ih =>
    intro h
    unfold attemptEach
    dsimp only
    rw [ih, exportRequests_append, (exportOidcScope_readings env h name dir format).1]
    have : exportRequests [if (exportOidcScope env h name dir format).1 = none then
        Event.UpdateSuccessSummary utils.Operation.EXPORT
        else Event.UpdateFailureSummary name] = [] := by
      split_ifs <;> rfl
    rw [this]
    simp

theorem attemptEach_summaryMutations (env : Env) (dir : FilePath) (format : String) :
    ∀ (names : List String) (h : List Event),
      ∃ entries, summaryMutations (attemptEach env dir format names h) =
          summaryMutations h ++ entries ∧
        List.Forall₂
          (fun name e => e = Event.UpdateSuccessSummary utils.Operation.EXPORT ∨
            e = Event.UpdateFailureSummary name) names entries := by
  intro names
  induction names with
  | nil => intro h; exact ⟨[], by simp [attemptEach], List.Forall₂.nil⟩
  | cons name rest ih =>
    intro h
    unfold attemptEach
    dsimp only
    obtain ⟨entries, he, hall⟩ := ih ((exportOidcScope env h name dir format).2 ++
      [if (exportOidcScope env h name dir format).1 = none then
        Event.UpdateSuccessSummary utils.Operation.EXPORT
        else Event.UpdateFailureSummary name])
    rw [he, summaryMutations_append, (exportOidcScope_readings env h name dir format).2]
    by_cases hok : (exportOidcScope env h name dir format).1 = none
    · refine ⟨Event.UpdateSuccessSummary utils.Operation.EXPORT :: entries, ?_,
        List.Forall₂.cons (Or.inl rfl) hall⟩
      rw [if_pos hok]
      simp [summaryMutations, Event.isSummary]
    · refine ⟨Event.UpdateFailureSummary name :: entries, ?_,
        List.Forall₂.cons (Or.inr rfl) hall⟩
      rw [if_neg hok]
      simp [summaryMutations, Event.isSummary]

theorem attemptEach_events (env : Env) (dir : FilePath) (format : String) (excluded : String) :
    ∀ (names : List String) (h : List Event), excluded ∉ names →
      (∀ e ∈ h, e.concerns excluded = false) →
      ∀ e ∈ attemptEach env dir format names h, e.concerns excluded = false := by
  intro names
  induction names with
  | nil => intro h _ hh; simpa [attemptEach] using hh
  | cons name rest ih =>
    intro h hnot hh
    have hne : name ≠ excluded := fun heq => hnot (heq ▸ List.mem_cons_self _ _)
    have hrest : excluded ∉ rest := fun hmem => hnot (List.mem_cons_of_mem _ hmem)
    unfold attemptEach
    dsimp only
    apply ih _ hrest
    obtain ⟨fileType, evs, he, hevs⟩ := exportOidcScope_events env h name dir format
    rw [he]
    intro e hmem
    rcases List.mem_append.mp hmem with hmem | hmem
    · rcases List.mem_append.mp hmem with hmem | hmem
      · exact hh e hmem
      · rcases List.mem_cons.mp hmem with hmem | hmem
        · rw [hmem]; simpa [Event.concerns] using hne
        · rcases hevs with rfl | ⟨path, data, rfl⟩
          · simp at hmem
          · rw [List.mem_singleton.mp hmem]; rfl
    · rw [List.mem_singleton.mp hmem]
      split_ifs
      · rfl
      · simpa [Event.concerns] using hne

theorem exportPrepare_readings (env : Env) (dir : FilePath) :
    exportRequests (exportPrepare env dir) = [] ∧ summaryMutations (exportPrepare env dir) = [] ∧
      ∀ name, ∀ e ∈ exportPrepare env dir, e.concerns name = false := by
  unfold exportPrepare
  split_ifs
  · exact ⟨rfl, rfl, by simp [Event.concerns]⟩
  · have hl := getOidcScopeList_events env []
    unfold getDeployedOidcScopeNames
    rcases hg : getOidcScopeList env [] with ⟨e | list, h1⟩
    · rw [hg] at hl
      dsimp only at hl ⊢
      rw [hl]
      exact ⟨rfl, rfl, by simp [Event.concerns]⟩
    · rw [hg] at hl
      dsimp only at hl ⊢
      rw [hl]
      exact ⟨rfl, rfl, by simp [Event.concerns]⟩
  · exact ⟨rfl, rfl, by simp⟩

theorem removeDeployedScope_no_local (env : Env) (h : List Event) (scope : oidcScope) :
    ∃ evs, removeDeployedScope env [] h scope = h ++ evs ∧
      deleteRequests evs =
        (if (!utils.IsResourceExcluded scope.Name env.OidcScopeConfigs) = true then
          [scope.Name] else []) ∧
      createRequests evs = [] ∧ updateRequests evs = [] := by
  unfold removeDeployedScope
  simp only [List.any_nil, Bool.false_eq_true, if_false]
  cases hex : utils.IsResourceExcluded scope.Name env.OidcScopeConfigs
  · simp only [Bool.false_eq_true, if_false, Bool.not_false, if_true]
    rcases env.SendDeleteRequest h scope.Name with _ | err
    · exact ⟨[Event.SendDeleteRequest scope.Name,
          Event.UpdateSuccessSummary utils.Operation.DELETE],
        by simp only [List.append_assoc]; rfl, rfl, rfl, rfl⟩
    · exact ⟨[Event.SendDeleteRequest scope.Name, Event.UpdateFailureSummary scope.Name,
          Event.UpdateSuccessSummary utils.Operation.DELETE],
        by simp only [List.append_assoc]; rfl, rfl, rfl, rfl⟩
  · exact ⟨[], by simp, rfl, rfl, rfl⟩

theorem foldl_removeDeployedScope_no_local (env : Env) :
    ∀ (deployed : List oidcScope) (h : List Event),
      ∃ evs, deployed.foldl (removeDeployedScope env []) h = h ++ evs ∧
        deleteRequests evs =
          (deployed.filter
            (fun scope => !utils.IsResourceExcluded scope.Name env.OidcScopeConfigs)).map
            (fun scope => scope.Name) ∧
        createRequests evs = [] ∧ updateRequests evs = [] := by
  intro deployed
  induction deployed with
  | nil => intro h; exact ⟨[], by simp, rfl, rfl, rfl⟩
  | cons scope rest ih =>
    intro h
    obtain ⟨evs1, e1, d1, c1, u1⟩ := removeDeployedScope_no_local env h scope
    obtain ⟨evs2, e2, d2, c2, u2⟩ := ih (removeDeployedScope env [] h scope)
    refine ⟨evs1 ++ evs2, ?_, ?_, ?_, ?_⟩
    · rw [List.foldl_cons, e2, e1, List.append_assoc]
    · rw [deleteRequests_append, d1, d2]
      cases hex : utils.IsResourceExcluded scope.Name env.OidcScopeConfigs <;> simp [hex]
    · rw [createRequests_append, c1, c2]; rfl
    · rw [updateRequests_append, u1, u2]; rfl

end oidcScopes

/-! ## Claims on the version comparator and the version gate -/

/-- C1 (the code departs from the claim): `ParseVersion` does not accept the
two-component form. On `"7.2"` it returns the zero triple with the format
error instead of `(7, 2, 0)`, and `CompareVersions "7.2" "7.2.0"` returns `0`
with an error instead of `0` without one. -/
theorem C1_two_component_version_rejected :
    utils.ParseVersion "7.2" =
        ([0, 0, 0], some "version must have format MAJOR.MINOR.PATCH, got: 7.2") ∧
      utils.ParseVersion "5.0" =
        ([0, 0, 0], some "version must have format MAJOR.MINOR.PATCH, got: 5.0") ∧
      (utils.CompareVersions "7.2" "7.2.0").1 = 0 ∧
      (utils.CompareVersions "7.2" "7.2.0").2 ≠ none := by
  decide

/-- C2: `CompareVersions v1 v2` returns an error exactly when `ParseVersion`
fails on `v1` or on `v2`, and the result is then `0`; otherwise both sides
parse to triples, there is no error, and the result is `-1`, `0` or `1`
according to the lexicographic order of the triples `(major, minor, patch)`.
The three examples of the specification evaluate as stated. -/
theorem C2_CompareVersions_contract (v1 v2 : String) :
    ((utils.CompareVersions v1 v2).2 ≠ none ↔
        ((utils.ParseVersion v1).2 ≠ none ∨ (utils.ParseVersion v2).2 ≠ none)) ∧
      ((utils.CompareVersions v1 v2).2 ≠ none → (utils.CompareVersions v1 v2).1 = 0) ∧
      ((utils.CompareVersions v1 v2).2 = none →
        ∃ a1 b1 c1 a2 b2 c2 : Int,
          utils.ParseVersion v1 = ([a1, b1, c1], none) ∧
          utils.ParseVersion v2 = ([a2, b2, c2], none) ∧
          ((utils.CompareVersions v1 v2).1 = -1 ↔ utils.lexLt a1 b1 c1 a2 b2 c2) ∧
          ((utils.CompareVersions v1 v2).1 = 0 ↔ (a1 = a2 ∧ b1 = b2 ∧ c1 = c2)) ∧
          ((utils.CompareVersions v1 v2).1 = 1 ↔ utils.lexLt a2 b2 c2 a1 b1 c1) ∧
          ((utils.CompareVersions v1 v2).1 = -1 ∨ (utils.CompareVersions v1 v2).1 = 0 ∨
            (utils.CompareVersions v1 v2).1 = 1)) ∧
      utils.CompareVersions "7.0.0" "6.1.0" = (1, none) ∧
      utils.CompareVersions "7.0.0" "7.0.0" = (0, none) ∧
      utils.CompareVersions "7.0.9" "7.0.10" = (-1, none) := by
  refine ⟨utils.CompareVersions_err_iff v1 v2, utils.CompareVersions_err_result v1 v2, ?_,
    by decide, by decide, by decide⟩
  intro hok
  have hnot := (not_congr (utils.CompareVersions_err_iff v1 v2)).mp (not_not.mpr hok)
  have h1 : (utils.ParseVersion v1).2 = none := by
    by_contra h; exact hnot (Or.inl h)
  have h2 : (utils.ParseVersion v2).2 = none := by
    by_contra h; exact hnot (Or.inr h)
  obtain ⟨a1, b1, c1, t1⟩ := utils.ParseVersion_triple v1
  obtain ⟨a2, b2, c2, t2⟩ := utils.ParseVersion_triple v2
  have e1 : utils.ParseVersion v1 = ([a1, b1, c1], none) := Prod.ext t1 h1
  have e2 : utils.ParseVersion v2 = ([a2, b2, c2], none) := Prod.ext t2 h2
  refine ⟨a1, b1, c1, a2, b2, c2, e1, e2, ?_⟩
  rw [utils.CompareVersions_ok v1 v2 _ _ e1 e2, utils.compareParts_triple]
  simp only [utils.lexLt]
  split_ifs <;> simp <;> omega

/-- C3: `IsEntitySupportedInVersion` is true when no server version is
configured, true when the resource type has no registered minimum, true when
comparing the configured version with the minimum fails, and otherwise true
exactly when the configured version compares `≥` the minimum; for
`USERSTORES` (minimum `"5.9.0"`) the configured version `"5.0.0"` gives false
and `"5.9.0"` gives true. -/
theorem C3_IsEntitySupportedInVersion_contract (t : configs.ResourceTypes)
    (serverVersion resourceType : String) :
    utils.IsEntitySupportedInVersion t "" resourceType = true ∧
      ((configs.EntityVersionRequirements t).lookup resourceType = none →
        utils.IsEntitySupportedInVersion t serverVersion resourceType = true) ∧
      (∀ minVersion, (configs.EntityVersionRequirements t).lookup resourceType = some minVersion →
        (utils.CompareVersions serverVersion minVersion).2 ≠ none →
        utils.IsEntitySupportedInVersion t serverVersion resourceType = true) ∧
      (∀ minVersion, serverVersion ≠ "" →
        (configs.EntityVersionRequirements t).lookup resourceType = some minVersion →
        (utils.CompareVersions serverVersion minVersion).2 = none →
        (utils.IsEntitySupportedInVersion t serverVersion resourceType = true ↔
          (utils.CompareVersions serverVersion minVersion).1 ≥ 0)) ∧
      (configs.EntityVersionRequirements t).lookup t.USERSTORES = some "5.9.0" ∧
      utils.IsEntitySupportedInVersion t "5.0.0" t.USERSTORES = false ∧
      utils.IsEntitySupportedInVersion t "5.9.0" t.USERSTORES = true := by
  have hlook : (configs.EntityVersionRequirements t).lookup t.USERSTORES = some "5.9.0" := by
    simp only [configs.EntityVersionRequirements, List.lookup, configs.MIN_VERSION_APPLICATIONS,
      configs.MIN_VERSION_IDENTITY_PROVIDERS, configs.MIN_VERSION_CLAIMS,
      configs.MIN_VERSION_USERSTORES]
    split <;> [rfl; skip]
    split <;> [rfl; skip]
    split <;> [rfl; skip]
    simp
  have h50 : utils.CompareVersions "5.0.0" "5.9.0" = (-1, none) := by decide
  have h59 : utils.CompareVersions "5.9.0" "5.9.0" = (0, none) := by decide
  refine ⟨by simp [utils.IsEntitySupportedInVersion], ?_, ?_, ?_, hlook, ?_, ?_⟩
  · intro h
    simp [utils.IsEntitySupportedInVersion, h]
  · intro minVersion h herr
    unfold utils.IsEntitySupportedInVersion
    rcases hc : utils.CompareVersions serverVersion minVersion with ⟨r, _ | e⟩
    · rw [hc] at herr; exact absurd rfl herr
    · simp [h, hc]
  · intro minVersion hv h hok
    unfold utils.IsEntitySupportedInVersion
    rcases hc : utils.CompareVersions serverVersion minVersion with ⟨r, _ | e⟩
    · simp [hv, h, hc]
    · rw [hc] at hok; exact absurd hok (by simp)
  · unfold utils.IsEntitySupportedInVersion
    rw [if_neg (by decide), hlook]
    simp only [h50]; decide
  · unfold utils.IsEntitySupportedInVersion
    rw [if_neg (by decide), hlook]
    simp only [h59]; decide

/-- C4: `ParseVersion` returns an error for the empty string, for a string of
white space only, for a string with a dot-separated component that (trimmed)
`Atoi` does not read as an integer, for one with a negative component, for one
with more than three components, and for one with a single component. -/
theorem C4_ParseVersion_rejects (version : String)
    (h : version = "" ∨
      (∀ c ∈ version.data, unicode.IsSpace c = true) ∨
      (∃ c ∈ strings.Split version '.', (strconv.Atoi (strings.TrimSpace c)).2 ≠ none) ∨
      (∃ c ∈ strings.Split version '.', (strconv.Atoi (strings.TrimSpace c)).1 < 0) ∨
      3 < (strings.Split version '.').length ∨
      (strings.Split version '.').length = 1) :
    (utils.ParseVersion version).2 ≠ none := by
  intro hok
  obtain ⟨hlen, hall⟩ := (utils.ParseVersion_ok_iff version).mp hok
  rcases h with rfl | hsp | ⟨c, hc, herr⟩ | ⟨c, hc, hneg⟩ | hgt | hone
  · exact absurd hlen (by decide)
  · rw [utils.Split_of_all_space version hsp] at hlen
    simp at hlen
  · exact herr (hall c hc).1
  · have := (hall c hc).2
    omega
  · omega
  · omega

/-- C4 at the inputs that the tests of the repository reject: `""`, `"   "`,
`"7.x.0"`, `"abc.0.0"`, `"7.-1.0"`, `"7.0.0.1"` and `"7"`. -/
theorem C4_ParseVersion_rejects_witness :
    (utils.ParseVersion "").2 ≠ none ∧ (utils.ParseVersion "   ").2 ≠ none ∧
      (utils.ParseVersion "7.x.0").2 ≠ none ∧ (utils.ParseVersion "abc.0.0").2 ≠ none ∧
      (utils.ParseVersion "7.-1.0").2 ≠ none ∧ (utils.ParseVersion "7.0.0.1").2 ≠ none ∧
      (utils.ParseVersion "7").2 ≠ none :=
  ⟨C4_ParseVersion_rejects "" (Or.inl rfl),
    C4_ParseVersion_rejects "   " (Or.inr (Or.inl (by decide))),
    C4_ParseVersion_rejects "7.x.0" (Or.inr (Or.inr (Or.inl (by decide)))),
    C4_ParseVersion_rejects "abc.0.0" (Or.inr (Or.inr (Or.inl (by decide)))),
    C4_ParseVersion_rejects "7.-1.0" (Or.inr (Or.inr (Or.inr (Or.inl (by decide))))),
    C4_ParseVersion_rejects "7.0.0.1" (Or.inr (Or.inr (Or.inr (Or.inr (Or.inl (by decide)))))),
    C4_ParseVersion_rejects "7" (Or.inr (Or.inr (Or.inr (Or.inr (Or.inr (by decide))))))⟩

/-! ## Claims on the OIDC-scope import and export -/

/-- C5 (the code departs from the claim): when the delete request of the
delete-sync pass fails, `removeDeletedDeployedScopes` records the failure entry
for the scope and then also a `DELETE` success, two mutations of the run
summary instead of one. Here no local file exists, `scope-b` is deployed and not
excluded, and its delete request fails. -/
theorem C5_failed_delete_also_counts_as_success :
    oidcScopes.removeDeletedDeployedScopes
        (oidcScopes.exampleEnv [] ["scope-b"] [] ["scope-b"] true) [] [] =
      [oidcScopes.Event.SendGetListRequest,
        oidcScopes.Event.SendDeleteRequest "scope-b",
        oidcScopes.Event.UpdateFailureSummary "scope-b",
        oidcScopes.Event.UpdateSuccessSummary utils.Operation.DELETE] ∧
      oidcScopes.successCount utils.Operation.DELETE
        (oidcScopes.ImportAll (oidcScopes.exampleEnv [] ["scope-b"] [] ["scope-b"] true)
          ["in"]) = 1 ∧
      oidcScopes.failureEntries
        (oidcScopes.ImportAll (oidcScopes.exampleEnv [] ["scope-b"] [] ["scope-b"] true)
          ["in"]) = ["scope-b"] := by
  decide

/-- C6 (the code departs from the claim): for the local file `renamed.yaml`
whose body names the deployed scope `scope-a`, `ImportAll` finds that the scope
exists and issues an update request whose target is `renamed`, the file name
without its extension, not the authoritative name `scope-a`. -/
theorem C6_update_targets_file_name :
    oidcScopes.authoritativeName
        (oidcScopes.exampleEnv [("renamed.yaml", "name: scope-a")] ["scope-a"] [] [] false)
        ["in", "OidcScopes", "renamed.yaml"] = some "scope-a" ∧
      oidcScopes.ImportAll
        (oidcScopes.exampleEnv [("renamed.yaml", "name: scope-a")] ["scope-a"] [] [] false)
        ["in"] =
      [oidcScopes.Event.SendGetListRequest,
        oidcScopes.Event.SendUpdateRequest "renamed" ["in", "OidcScopes", "renamed.yaml"]
          "name: scope-a",
        oidcScopes.Event.UpdateSuccessSummary utils.Operation.UPDATE] := by
  decide

/-- C7: for a scope name in the exclusion list, no event of `ImportAll` is a
create, update or delete request for that scope or a failure entry for it; the
run is the same as the run without the local files of that scope; and the
delete-sync loop is the same as the loop without the deployed scopes of that
name. This holds for every environment, so with and without delete-sync. -/
theorem C7_excluded_scope_is_left_alone (env : oidcScopes.Env) (inputDirPath : FilePath)
    (name : String) (hex : name ∈ env.OidcScopeConfigs) :
    (∀ e ∈ oidcScopes.ImportAll env inputDirPath, e.concerns name = false) ∧
      oidcScopes.ImportAll (env.withoutLocalFilesOf name) inputDirPath =
        oidcScopes.ImportAll env inputDirPath ∧
      (∀ (localFiles : List String) (deployed : List oidcScopes.oidcScope)
          (h : List oidcScopes.Event),
        (deployed.filter (fun scope => decide (scope.Name ≠ name))).foldl
            (oidcScopes.removeDeployedScope env localFiles) h =
          deployed.foldl (oidcScopes.removeDeployedScope env localFiles) h) := by
  refine ⟨oidcScopes.ImportAll_events env inputDirPath name hex,
    oidcScopes.ImportAll_withoutLocalFilesOf env inputDirPath name hex, ?_⟩
  intro localFiles deployed h
  apply oidcScopes.foldl_filter_skip
  intro h scope hs
  have : scope.Name = name := by simpa using hs
  exact oidcScopes.removeDeployedScope_excluded env localFiles h scope (this ▸ hex)

/-- C7 at an environment in which `scope-b` is excluded and exists both as the
local file `scope-b.yaml` and as a deployed scope, next to the local file
`scope-a.yaml`, with delete-sync enabled: the run creates `scope-a` and nothing
in it concerns `scope-b`. -/
theorem C7_excluded_scope_witness :
    "scope-b" ∈ (oidcScopes.exampleEnv
        [("scope-a.yaml", "name: scope-a"), ("scope-b.yaml", "name: scope-b")]
        ["scope-b"] ["scope-b"] [] true).OidcScopeConfigs ∧
      (∀ e ∈ oidcScopes.ImportAll (oidcScopes.exampleEnv
          [("scope-a.yaml", "name: scope-a"), ("scope-b.yaml", "name: scope-b")]
          ["scope-b"] ["scope-b"] [] true) ["in"],
        e.concerns "scope-b" = false) ∧
      oidcScopes.ImportAll (oidcScopes.exampleEnv
          [("scope-a.yaml", "name: scope-a"), ("scope-b.yaml", "name: scope-b")]
          ["scope-b"] ["scope-b"] [] true) ["in"] =
        [oidcScopes.Event.SendGetListRequest, oidcScopes.Event.SendGetListRequest,
          oidcScopes.Event.SendImportRequest ["in", "OidcScopes", "scope-a.yaml"]
            "name: scope-a",
          oidcScopes.Event.UpdateSuccessSummary utils.Operation.IMPORT] :=
  ⟨by decide,
    (C7_excluded_scope_is_left_alone _ ["in"] "scope-b" (by decide)).1,
    by decide⟩

/-- C8 (the claim as stated fails): on a server that applies the requests it
gets, with delete-sync enabled, nothing excluded and every transport call
succeeding, the local file `renamed.yaml` whose body names the deployed scope
`scope-a` does not get the update request that the claim gives to a file whose
scope name is among the remote scopes. The delete-sync pass deletes `scope-a`,
no local file having that derived name, and the existence check of the file,
made after it, then finds no such scope, so the file gets a create request.
The claim also fails when the import directory does not exist or the resource
type is excluded: the deployed scope `scope-b`, the name of no local file, gets
no delete request. -/
theorem C8_ImportAll_reconciles_counterexample :
    ((oidcScopes.exampleServerEnv [("renamed.yaml", "name: scope-a")] ["scope-a"]).AllowDelete =
          true ∧
        (oidcScopes.exampleServerEnv [("renamed.yaml", "name: scope-a")]
          ["scope-a"]).OidcScopeConfigs = [] ∧
        (∀ h, ∃ deployed, (oidcScopes.getOidcScopeList
          (oidcScopes.exampleServerEnv [("renamed.yaml", "name: scope-a")] ["scope-a"]) h).1 =
            .ok deployed) ∧
        (∀ h path data, (oidcScopes.exampleServerEnv [("renamed.yaml", "name: scope-a")]
          ["scope-a"]).SendImportRequest h path data = none) ∧
        (∀ h scopeId path data, (oidcScopes.exampleServerEnv [("renamed.yaml", "name: scope-a")]
          ["scope-a"]).SendUpdateRequest h scopeId path data = none) ∧
        (∀ h name, (oidcScopes.exampleServerEnv [("renamed.yaml", "name: scope-a")]
          ["scope-a"]).SendDeleteRequest h name = none) ∧
        (oidcScopes.getOidcScopeList
          (oidcScopes.exampleServerEnv [("renamed.yaml", "name: scope-a")] ["scope-a"]) []).1 =
            .ok [oidcScopes.scopeNamed "scope-a"] ∧
        oidcScopes.authoritativeName
          (oidcScopes.exampleServerEnv [("renamed.yaml", "name: scope-a")] ["scope-a"])
          ["in", "OidcScopes", "renamed.yaml"] = some "scope-a") ∧
      oidcScopes.ImportAll
          (oidcScopes.exampleServerEnv [("renamed.yaml", "name: scope-a")] ["scope-a"]) ["in"] =
        [oidcScopes.Event.SendGetListRequest,
          oidcScopes.Event.SendDeleteRequest "scope-a",
          oidcScopes.Event.UpdateSuccessSummary utils.Operation.DELETE,
          oidcScopes.Event.SendGetListRequest,
          oidcScopes.Event.SendImportRequest ["in", "OidcScopes", "renamed.yaml"]
            "name: scope-a",
          oidcScopes.Event.UpdateSuccessSummary utils.Operation.IMPORT] ∧
      oidcScopes.updateRequests (oidcScopes.ImportAll
          (oidcScopes.exampleServerEnv [("renamed.yaml", "name: scope-a")] ["scope-a"]) ["in"]) ≠
        (["renamed.yaml"].filter
          (fun file => oidcScopes.toUpdate
            (oidcScopes.exampleServerEnv [("renamed.yaml", "name: scope-a")] ["scope-a"])
            [oidcScopes.scopeNamed "scope-a"] (filepath.Join ["in", "OidcScopes"] file))).map
          (fun file => (oidcScopes.derivedScopeName file,
            filepath.Join ["in", "OidcScopes"] file)) ∧
      oidcScopes.createRequests (oidcScopes.ImportAll
          (oidcScopes.exampleServerEnv [("renamed.yaml", "name: scope-a")] ["scope-a"]) ["in"]) ≠
        (["renamed.yaml"].filter
          (fun file => oidcScopes.toCreate
            (oidcScopes.exampleServerEnv [("renamed.yaml", "name: scope-a")] ["scope-a"])
            [oidcScopes.scopeNamed "scope-a"] (filepath.Join ["in", "OidcScopes"] file))).map
          (fun file => filepath.Join ["in", "OidcScopes"] file) ∧
      ((oidcScopes.getOidcScopeList (oidcScopes.exampleEnvNoDirectory ["scope-b"]) []).1 =
          .ok [oidcScopes.scopeNamed "scope-b"] ∧
        oidcScopes.ImportAll (oidcScopes.exampleEnvNoDirectory ["scope-b"]) ["in"] = []) ∧
      ((oidcScopes.getOidcScopeList (oidcScopes.exampleEnvTypeExcluded ["scope-b"]) []).1 =
          .ok [oidcScopes.scopeNamed "scope-b"] ∧
        oidcScopes.ImportAll (oidcScopes.exampleEnvTypeExcluded ["scope-b"]) ["in"] = []) :=
  ⟨⟨rfl, rfl, fun _ => ⟨_, rfl⟩, fun _ _ _ => rfl, fun _ _ _ _ => rfl, fun _ _ => rfl, rfl,
      by decide⟩,
    by decide, by decide, by decide, ⟨rfl, by decide⟩, ⟨rfl, by decide⟩⟩

/-- C8 (as amended): with the resource type not excluded, the import directory
present, delete-sync enabled, nothing excluded and every transport call
succeeding, the run of `ImportAll` is the delete-sync pass over the scopes that
the server lists first, followed by the import loop `reconcileEach`, which
decides each local file against the scopes that the server lists at that
moment. The delete requests are those for the scopes listed first that are the
derived name of no local file; every local file whose body gives a scope name
gets one request, in order, a create request when that name is not among the
scopes listed at its own existence check and an update request when it is; the
run summary gains one `IMPORT`, `UPDATE` or `DELETE` success for each of these
requests and no failure entry. -/
theorem C8_ImportAll_reconciles_with_current_list (env : oidcScopes.Env)
    (inputDirPath : FilePath)
    (hgate : env.IsResourceTypeExcluded = false) (hsync : env.AllowDelete = true)
    (hexcl : env.OidcScopeConfigs = [])
    (hstat : env.StatIsNotExist (filepath.Join inputDirPath env.OIDC_SCOPES) = false)
    (hlist : ∀ h, ∃ deployed, (oidcScopes.getOidcScopeList env h).1 = .ok deployed)
    (hcreate : ∀ h path data, env.SendImportRequest h path data = none)
    (hupdate : ∀ h scopeId path data, env.SendUpdateRequest h scopeId path data = none)
    (hdelete : ∀ h name, env.SendDeleteRequest h name = none) :
    oidcScopes.ImportAll env inputDirPath =
        oidcScopes.reconcileEach env (filepath.Join inputDirPath env.OIDC_SCOPES)
          (env.ReadDir (filepath.Join inputDirPath env.OIDC_SCOPES)).1
          ([oidcScopes.Event.SendGetListRequest] ++
            (oidcScopes.deployedAt env []).flatMap
              (oidcScopes.deleteEventsOf
                (env.ReadDir (filepath.Join inputDirPath env.OIDC_SCOPES)).1)) ∧
      oidcScopes.deleteRequests (oidcScopes.ImportAll env inputDirPath) =
        ((oidcScopes.deployedAt env []).filter (fun scope => !oidcScopes.hasLocalFile
          (env.ReadDir (filepath.Join inputDirPath env.OIDC_SCOPES)).1 scope.Name)).map
          (fun scope => scope.Name) ∧
      oidcScopes.fileRequests (oidcScopes.ImportAll env inputDirPath) =
        ((env.ReadDir (filepath.Join inputDirPath env.OIDC_SCOPES)).1.filter
          (fun file => (oidcScopes.authoritativeName env
            (filepath.Join (filepath.Join inputDirPath env.OIDC_SCOPES) file)).isSome)).map
          (fun file => filepath.Join (filepath.Join inputDirPath env.OIDC_SCOPES) file) ∧
      (∀ (deployed : List oidcScopes.oidcScope) (file name : String),
        oidcScopes.authoritativeName env
            (filepath.Join (filepath.Join inputDirPath env.OIDC_SCOPES) file) = some name →
        oidcScopes.createRequests (oidcScopes.importEventsOf env deployed
            (filepath.Join inputDirPath env.OIDC_SCOPES) file) =
          (if oidcScopes.isDeployed deployed name = true then []
            else [filepath.Join (filepath.Join inputDirPath env.OIDC_SCOPES) file]) ∧
        oidcScopes.updateRequests (oidcScopes.importEventsOf env deployed
            (filepath.Join inputDirPath env.OIDC_SCOPES) file) =
          (if oidcScopes.isDeployed deployed name = true then
            [(oidcScopes.derivedScopeName file,
              filepath.Join (filepath.Join inputDirPath env.OIDC_SCOPES) file)]
            else [])) ∧
      oidcScopes.successCount utils.Operation.IMPORT (oidcScopes.ImportAll env inputDirPath) =
        (oidcScopes.createRequests (oidcScopes.ImportAll env inputDirPath)).length ∧
      oidcScopes.successCount utils.Operation.UPDATE (oidcScopes.ImportAll env inputDirPath) =
        (oidcScopes.updateRequests (oidcScopes.ImportAll env inputDirPath)).length ∧
      oidcScopes.successCount utils.Operation.DELETE (oidcScopes.ImportAll env inputDirPath) =
        (oidcScopes.deleteRequests (oidcScopes.ImportAll env inputDirPath)).length ∧
      oidcScopes.successCount utils.Operation.EXPORT (oidcScopes.ImportAll env inputDirPath) = 0 ∧
      oidcScopes.failureEntries (oidcScopes.ImportAll env inputDirPath) = [] := by
  have hrun := oidcScopes.ImportAll_reconcileEach env inputDirPath hgate hsync hexcl hstat hlist
    hcreate hupdate hdelete
  obtain ⟨p1, p2, p3, p4, p5, p6, p7, p8, p9⟩ := oidcScopes.deletePass_readings
    (env.ReadDir (filepath.Join inputDirPath env.OIDC_SCOPES)).1 (oidcScopes.deployedAt env [])
  obtain ⟨r1, r2, r3, r4, r5, r6, r7⟩ := oidcScopes.reconcileEach_readings env
    (filepath.Join inputDirPath env.OIDC_SCOPES)
    (env.ReadDir (filepath.Join inputDirPath env.OIDC_SCOPES)).1
    ([oidcScopes.Event.SendGetListRequest] ++
      (oidcScopes.deployedAt env []).flatMap
        (oidcScopes.deleteEventsOf (env.ReadDir (filepath.Join inputDirPath env.OIDC_SCOPES)).1))
  rw [← hrun] at r1 r2 r3 r4 r5 r6 r7
  rw [p3, List.length_nil, Nat.add_zero, p7, Nat.zero_add] at r6
  rw [p4, List.length_nil, Nat.add_zero, p8, Nat.zero_add] at r7
  refine ⟨hrun, ?_, ?_, ?_, r6, r7, ?_, ?_, ?_⟩
  · rw [r1, p1]
  · rw [r5, p5, List.nil_append]
  · intro deployed file name ha
    exact oidcScopes.importEventsOf_decision env deployed _ file name ha
  · rw [r3, p2, r1, p1, List.length_map]
  · rw [r4, p9]
  · rw [r2, p6]

/-- C8 as amended, at the scenario of the specification on a server that applies
the requests it gets: the local file `scope-a.yaml` (name `scope-a`), the
deployed scope `scope-b`, delete-sync enabled, nothing excluded. The run deletes
`scope-b`, creates `scope-a`, and the run summary gains one `DELETE` success
and one `IMPORT` success. -/
theorem C8_ImportAll_reconciles_with_current_list_witness :
    oidcScopes.deleteRequests (oidcScopes.ImportAll
        (oidcScopes.exampleServerEnv [("scope-a.yaml", "name: scope-a")] ["scope-b"])
        ["in"]) = ["scope-b"] ∧
      oidcScopes.fileRequests (oidcScopes.ImportAll
        (oidcScopes.exampleServerEnv [("scope-a.yaml", "name: scope-a")] ["scope-b"])
        ["in"]) = [["in", "OidcScopes", "scope-a.yaml"]] ∧
      oidcScopes.successCount utils.Operation.IMPORT (oidcScopes.ImportAll
        (oidcScopes.exampleServerEnv [("scope-a.yaml", "name: scope-a")] ["scope-b"])
        ["in"]) = 1 ∧
      oidcScopes.successCount utils.Operation.DELETE (oidcScopes.ImportAll
        (oidcScopes.exampleServerEnv [("scope-a.yaml", "name: scope-a")] ["scope-b"])
        ["in"]) = 1 ∧
      oidcScopes.failureEntries (oidcScopes.ImportAll
        (oidcScopes.exampleServerEnv [("scope-a.yaml", "name: scope-a")] ["scope-b"])
        ["in"]) = [] ∧
      oidcScopes.ImportAll
        (oidcScopes.exampleServerEnv [("scope-a.yaml", "name: scope-a")] ["scope-b"])
        ["in"] =
        [oidcScopes.Event.SendGetListRequest,
          oidcScopes.Event.SendDeleteRequest "scope-b",
          oidcScopes.Event.UpdateSuccessSummary utils.Operation.DELETE,
          oidcScopes.Event.SendGetListRequest,
          oidcScopes.Event.SendImportRequest ["in", "OidcScopes", "scope-a.yaml"]
            "name: scope-a",
          oidcScopes.Event.UpdateSuccessSummary utils.Operation.IMPORT] :=
  have key := C8_ImportAll_reconciles_with_current_list
    (oidcScopes.exampleServerEnv [("scope-a.yaml", "name: scope-a")] ["scope-b"])
    ["in"] rfl rfl rfl rfl (fun _ => ⟨_, rfl⟩)
    (fun _ _ _ => rfl) (fun _ _ _ _ => rfl) (fun _ _ => rfl)
  ⟨key.2.1.trans (by decide), key.2.2.1.trans (by decide),
    key.2.2.2.2.1.trans (by decide), key.2.2.2.2.2.2.1.trans (by decide),
    key.2.2.2.2.2.2.2.2, by decide⟩

/-- C9: when `ExportAll` gets the list `scopes` from the server, its run is the
run that the specification describes over the listed scopes that are not
excluded, in list order: each of them gets exactly one export request, whatever
the earlier attempts gave, and each attempt is followed by exactly one mutation
of the run summary, an `EXPORT` success when `exportOidcScope` returned no error
and else a failure entry for that scope's name. The attempt itself issues one
export request and no mutation of the run summary. For an excluded scope there
is no export request and no failure entry. -/
theorem C9_ExportAll_attempts_each_scope (env : oidcScopes.Env) (exportFilePath : FilePath)
    (format : String) (scopes : List oidcScopes.oidcScope)
    (hgate : env.IsResourceTypeExcluded = false)
    (hlist : (oidcScopes.getOidcScopeList env
      (oidcScopes.exportPrepare env (filepath.Join exportFilePath env.OIDC_SCOPES))).1 =
        .ok scopes) :
    oidcScopes.ExportAll env exportFilePath format =
        oidcScopes.attemptEach env (filepath.Join exportFilePath env.OIDC_SCOPES) format
          ((scopes.filter
            (fun scope => !utils.IsResourceExcluded scope.Name env.OidcScopeConfigs)).map
            (fun scope => scope.Name))
          (oidcScopes.exportPrepare env (filepath.Join exportFilePath env.OIDC_SCOPES) ++
            [oidcScopes.Event.SendGetListRequest]) ∧
      oidcScopes.exportRequests (oidcScopes.ExportAll env exportFilePath format) =
        (scopes.filter
          (fun scope => !utils.IsResourceExcluded scope.Name env.OidcScopeConfigs)).map
          (fun scope => scope.Name) ∧
      List.Forall₂
        (fun name e => e = oidcScopes.Event.UpdateSuccessSummary utils.Operation.EXPORT ∨
          e = oidcScopes.Event.UpdateFailureSummary name)
        ((scopes.filter
          (fun scope => !utils.IsResourceExcluded scope.Name env.OidcScopeConfigs)).map
          (fun scope => scope.Name))
        (oidcScopes.summaryMutations (oidcScopes.ExportAll env exportFilePath format)) ∧
      (∀ (h : List oidcScopes.Event) (name : String),
        oidcScopes.exportRequests
            (oidcScopes.exportOidcScope env h name
              (filepath.Join exportFilePath env.OIDC_SCOPES) format).2 =
          oidcScopes.exportRequests h ++ [name] ∧
        oidcScopes.summaryMutations
            (oidcScopes.exportOidcScope env h name
              (filepath.Join exportFilePath env.OIDC_SCOPES) format).2 =
          oidcScopes.summaryMutations h) ∧
      (∀ name ∈ env.OidcScopeConfigs,
        ∀ e ∈ oidcScopes.ExportAll env exportFilePath format, e.concerns name = false) := by
  have hrun : oidcScopes.ExportAll env exportFilePath format =
      oidcScopes.attemptEach env (filepath.Join exportFilePath env.OIDC_SCOPES) format
        ((scopes.filter
          (fun scope => !utils.IsResourceExcluded scope.Name env.OidcScopeConfigs)).map
          (fun scope => scope.Name))
        (oidcScopes.exportPrepare env (filepath.Join exportFilePath env.OIDC_SCOPES) ++
          [oidcScopes.Event.SendGetListRequest]) := by
    unfold oidcScopes.ExportAll
    simp only [hgate, Bool.false_eq_true, if_false]
    have hev := oidcScopes.getOidcScopeList_events env
      (oidcScopes.exportPrepare env (filepath.Join exportFilePath env.OIDC_SCOPES))
    rcases hg : oidcScopes.getOidcScopeList env
      (oidcScopes.exportPrepare env (filepath.Join exportFilePath env.OIDC_SCOPES))
      with ⟨r, h1⟩
    rw [hg] at hlist hev
    dsimp only at hlist hev
    subst hlist hev
    dsimp only
    exact oidcScopes.foldl_exportScope env _ format scopes _
  obtain ⟨hpe, hps, hpc⟩ :=
    oidcScopes.exportPrepare_readings env (filepath.Join exportFilePath env.OIDC_SCOPES)
  refine ⟨hrun, ?_, ?_, ?_, ?_⟩
  · rw [hrun, oidcScopes.attemptEach_exportRequests, oidcScopes.exportRequests_append, hpe]
    rfl
  · obtain ⟨entries, he, hall⟩ := oidcScopes.attemptEach_summaryMutations env
      (filepath.Join exportFilePath env.OIDC_SCOPES) format
      ((scopes.filter
        (fun scope => !utils.IsResourceExcluded scope.Name env.OidcScopeConfigs)).map
        (fun scope => scope.Name))
      (oidcScopes.exportPrepare env (filepath.Join exportFilePath env.OIDC_SCOPES) ++
        [oidcScopes.Event.SendGetListRequest])
    rw [hrun, he, oidcScopes.summaryMutations_append, hps]
    exact hall
  · intro h name
    exact oidcScopes.exportOidcScope_readings env h name _ format
  · intro name hex
    rw [hrun]
    apply oidcScopes.attemptEach_events
    · intro hmem
      obtain ⟨scope, hs, hn⟩ := List.mem_map.mp hmem
      have hnot := (List.mem_filter.mp hs).2
      rw [hn] at hnot
      simp [utils.IsResourceExcluded, hex] at hnot
    · intro e hmem
      rcases List.mem_append.mp hmem with hmem | hmem
      · exact hpc name e hmem
      · simp only [List.mem_singleton] at hmem
        rw [hmem]; rfl

/-- C9 at a server that lists `a`, `b`, `c`, where `b` is excluded and the export
of `a` fails: `a` and `c` are attempted, in this order, and the run summary
gets the failure entry of `a` and then one `EXPORT` success. -/
theorem C9_ExportAll_witness :
    oidcScopes.exportRequests (oidcScopes.ExportAll
        (oidcScopes.exampleEnv [] ["a", "b", "c"] ["b"] ["a"] false) ["out"] "yaml") =
        ["a", "c"] ∧
      oidcScopes.summaryMutations (oidcScopes.ExportAll
        (oidcScopes.exampleEnv [] ["a", "b", "c"] ["b"] ["a"] false) ["out"] "yaml") =
        [oidcScopes.Event.UpdateFailureSummary "a",
          oidcScopes.Event.UpdateSuccessSummary utils.Operation.EXPORT] :=
  ⟨(C9_ExportAll_attempts_each_scope
      (oidcScopes.exampleEnv [] ["a", "b", "c"] ["b"] ["a"] false) ["out"] "yaml"
      [oidcScopes.scopeNamed "a", oidcScopes.scopeNamed "b", oidcScopes.scopeNamed "c"]
      rfl rfl).2.1.trans (by decide),
    by decide⟩

/-- C12: when the import directory exists, delete-sync is enabled and
enumerating the directory fails, `ImportAll` runs the delete-sync pass, and then
the import loop, on the file list that the failed enumeration returned. When
that list is empty and the server lists `deployed`, the delete requests of the
run are those for the deployed scopes that are not excluded, in list order, and
the run issues no create and no update request. -/
theorem C12_failed_enumeration_still_deletes (env : oidcScopes.Env) (inputDirPath : FilePath)
    (deployed : List oidcScopes.oidcScope)
    (hgate : env.IsResourceTypeExcluded = false)
    (hstat : env.StatIsNotExist (filepath.Join inputDirPath env.OIDC_SCOPES) = false)
    (hsync : env.AllowDelete = true)
    (_herr : (env.ReadDir (filepath.Join inputDirPath env.OIDC_SCOPES)).2 ≠ none) :
    oidcScopes.ImportAll env inputDirPath =
        (env.ReadDir (filepath.Join inputDirPath env.OIDC_SCOPES)).1.foldl
          (oidcScopes.importFile env (filepath.Join inputDirPath env.OIDC_SCOPES))
          (oidcScopes.removeDeletedDeployedScopes env []
            (env.ReadDir (filepath.Join inputDirPath env.OIDC_SCOPES)).1) ∧
      ((env.ReadDir (filepath.Join inputDirPath env.OIDC_SCOPES)).1 = [] →
        (oidcScopes.getOidcScopeList env []).1 = .ok deployed →
        oidcScopes.deleteRequests (oidcScopes.ImportAll env inputDirPath) =
            (deployed.filter
              (fun scope => !utils.IsResourceExcluded scope.Name env.OidcScopeConfigs)).map
              (fun scope => scope.Name) ∧
          oidcScopes.createRequests (oidcScopes.ImportAll env inputDirPath) = [] ∧
          oidcScopes.updateRequests (oidcScopes.ImportAll env inputDirPath) = []) := by
  have hrun : oidcScopes.ImportAll env inputDirPath =
      (env.ReadDir (filepath.Join inputDirPath env.OIDC_SCOPES)).1.foldl
        (oidcScopes.importFile env (filepath.Join inputDirPath env.OIDC_SCOPES))
        (oidcScopes.removeDeletedDeployedScopes env []
          (env.ReadDir (filepath.Join inputDirPath env.OIDC_SCOPES)).1) := by
    unfold oidcScopes.ImportAll
    simp only [hgate, hstat, hsync, Bool.false_eq_true, if_false, if_true]
  refine ⟨hrun, ?_⟩
  intro hfiles hlist
  have hpass : oidcScopes.ImportAll env inputDirPath =
      oidcScopes.removeDeletedDeployedScopes env [] [] := by
    rw [hrun, hfiles]; rfl
  have hev := oidcScopes.getOidcScopeList_events env []
  obtain ⟨evs, he, hd, hc, hu⟩ :=
    oidcScopes.foldl_removeDeployedScope_no_local env deployed [oidcScopes.Event.SendGetListRequest]
  have htr : oidcScopes.ImportAll env inputDirPath =
      [oidcScopes.Event.SendGetListRequest] ++ evs := by
    rw [hpass]
    unfold oidcScopes.removeDeletedDeployedScopes
    rcases hg : oidcScopes.getOidcScopeList env [] with ⟨r, h1⟩
    rw [hg] at hlist hev
    dsimp only at hlist hev
    subst hlist hev
    exact he
  rw [htr, oidcScopes.deleteRequests_append, oidcScopes.createRequests_append,
    oidcScopes.updateRequests_append, hd, hc, hu]
  exact ⟨rfl, rfl, rfl⟩

/-- C12 at an environment in which enumerating the import directory fails with
an empty list, the server lists `scope-a` and `scope-b`, and `scope-b` is
excluded: the run deletes `scope-a` and does nothing else. -/
theorem C12_failed_enumeration_witness :
    ((oidcScopes.exampleEnvReadDirFails ["scope-a", "scope-b"] ["scope-b"] [] true).ReadDir
        ["in", "OidcScopes"]).2 ≠ none ∧
      oidcScopes.deleteRequests (oidcScopes.ImportAll
        (oidcScopes.exampleEnvReadDirFails ["scope-a", "scope-b"] ["scope-b"] [] true)
        ["in"]) = ["scope-a"] ∧
      oidcScopes.ImportAll
        (oidcScopes.exampleEnvReadDirFails ["scope-a", "scope-b"] ["scope-b"] [] true)
        ["in"] =
        [oidcScopes.Event.SendGetListRequest, oidcScopes.Event.SendDeleteRequest "scope-a",
          oidcScopes.Event.UpdateSuccessSummary utils.Operation.DELETE] :=
  ⟨by decide,
    ((C12_failed_enumeration_still_deletes
      (oidcScopes.exampleEnvReadDirFails ["scope-a", "scope-b"] ["scope-b"] [] true) ["in"]
      [oidcScopes.scopeNamed "scope-a", oidcScopes.scopeNamed "scope-b"]
      rfl rfl rfl (by decide)).2 rfl rfl).1.trans (by decide),
    by decide⟩

/-! ## The order of versions -/

/-- C10: on version strings that `ParseVersion` accepts, `CompareVersions`
returns no error, is antisymmetric, `Compare(x, y) = -Compare(y, x)`, and
transitive: `Compare(x, y) ≤ 0` and `Compare(y, z) ≤ 0` give
`Compare(x, z) ≤ 0`. -/
theorem C10_CompareVersions_antisymmetric_transitive (x y z : String)
    (hx : (utils.ParseVersion x).2 = none) (hy : (utils.ParseVersion y).2 = none)
    (hz : (utils.ParseVersion z).2 = none) :
    (utils.CompareVersions x y).2 = none ∧ (utils.CompareVersions y x).2 = none ∧
      (utils.CompareVersions x y).1 = -(utils.CompareVersions y x).1 ∧
      ((utils.CompareVersions x y).1 ≤ 0 → (utils.CompareVersions y z).1 ≤ 0 →
        (utils.CompareVersions x z).1 ≤ 0) := by
  obtain ⟨a1, b1, c1, t1⟩ := utils.ParseVersion_triple x
  obtain ⟨a2, b2, c2, t2⟩ := utils.ParseVersion_triple y
  obtain ⟨a3, b3, c3, t3⟩ := utils.ParseVersion_triple z
  have e1 : utils.ParseVersion x = ([a1, b1, c1], none) := Prod.ext t1 hx
  have e2 : utils.ParseVersion y = ([a2, b2, c2], none) := Prod.ext t2 hy
  have e3 : utils.ParseVersion z = ([a3, b3, c3], none) := Prod.ext t3 hz
  rw [utils.CompareVersions_ok x y _ _ e1 e2, utils.CompareVersions_ok y x _ _ e2 e1,
    utils.CompareVersions_ok y z _ _ e2 e3, utils.CompareVersions_ok x z _ _ e1 e3]
  refine ⟨rfl, rfl, ?_, ?_⟩
  · show utils.compareParts _ _ _ = -utils.compareParts _ _ _
    rw [utils.compareParts_triple, utils.compareParts_triple]
    split_ifs <;> omega
  · show utils.compareParts _ _ _ ≤ 0 → utils.compareParts _ _ _ ≤ 0 →
      utils.compareParts _ _ _ ≤ 0
    rw [utils.compareParts_nonpos_iff, utils.compareParts_nonpos_iff,
      utils.compareParts_nonpos_iff]
    omega

/-- C10 at `"7.0.9"`, `"7.0.10"`, `"7.1.0"`. -/
theorem C10_CompareVersions_witness :
    (utils.CompareVersions "7.0.9" "7.0.10").2 = none ∧
      (utils.CompareVersions "7.0.10" "7.0.9").2 = none ∧
      (utils.CompareVersions "7.0.9" "7.0.10").1 = -(utils.CompareVersions "7.0.10" "7.0.9").1 ∧
      ((utils.CompareVersions "7.0.9" "7.0.10").1 ≤ 0 →
        (utils.CompareVersions "7.0.10" "7.1.0").1 ≤ 0 →
        (utils.CompareVersions "7.0.9" "7.1.0").1 ≤ 0) :=
  C10_CompareVersions_antisymmetric_transitive "7.0.9" "7.0.10" "7.1.0"
    (by decide) (by decide) (by decide)

/-- C11: for numbers `a`, `b`, `c` in the range of a Go `int`, `ParseVersion` of
the decimal rendering `a.b.c` returns `(a, b, c)` without error, and so does
`ParseVersion` of that text with white space added before and after each of the
three components, which covers white space around the whole string. -/
theorem C11_ParseVersion_reads_three_components (a b c : Nat)
    (ha : a < 2 ^ (strconv.intSize - 1)) (hb : b < 2 ^ (strconv.intSize - 1))
    (hc : c < 2 ^ (strconv.intSize - 1)) (w0 w1 w2 w3 w4 w5 : String)
    (h0 : ∀ x ∈ w0.data, unicode.IsSpace x = true)
    (h1 : ∀ x ∈ w1.data, unicode.IsSpace x = true)
    (h2 : ∀ x ∈ w2.data, unicode.IsSpace x = true)
    (h3 : ∀ x ∈ w3.data, unicode.IsSpace x = true)
    (h4 : ∀ x ∈ w4.data, unicode.IsSpace x = true)
    (h5 : ∀ x ∈ w5.data, unicode.IsSpace x = true) :
    utils.ParseVersion (toString a ++ "." ++ toString b ++ "." ++ toString c) =
        ([(a : Int), (b : Int), (c : Int)], none) ∧
      utils.ParseVersion
          (w0 ++ toString a ++ w1 ++ "." ++ w2 ++ toString b ++ w3 ++ "." ++
            w4 ++ toString c ++ w5) =
        ([(a : Int), (b : Int), (c : Int)], none) := by
  have hrepr : ∀ n : Nat, (toString n).data = Nat.toDigits 10 n := fun _ => rfl
  have hdot : (".": String).data = ['.'] := rfl
  constructor
  · apply utils.ParseVersion_padded _ a b c ha hb hc [] [] [] [] [] [] <;>
      first
      | (intro x hx; simp at hx)
      | simp [String.data_append, hrepr, hdot]
  · apply utils.ParseVersion_padded _ a b c ha hb hc w0.data w1.data w2.data w3.data
      w4.data w5.data h0 h1 h2 h3 h4 h5
    simp [String.data_append, hrepr, hdot]

/-- C11 at the inputs of the tests of the repository: `"7.0.0"`, `"10.5.3"`,
`" 7.0.0 "` and `"7. 0 .0"`. -/
theorem C11_ParseVersion_witness :
    utils.ParseVersion "7.0.0" = ([7, 0, 0], none) ∧
      utils.ParseVersion "10.5.3" = ([10, 5, 3], none) ∧
      utils.ParseVersion " 7.0.0 " = ([7, 0, 0], none) ∧
      utils.ParseVersion "7. 0 .0" = ([7, 0, 0], none) :=
  ⟨(C11_ParseVersion_reads_three_components 7 0 0 (by decide) (by decide) (by decide)
      "" "" "" "" "" "" (by decide) (by decide) (by decide) (by decide) (by decide)
      (by decide)).1,
    (C11_ParseVersion_reads_three_components 10 5 3 (by decide) (by decide) (by decide)
      "" "" "" "" "" "" (by decide) (by decide) (by decide) (by decide) (by decide)
      (by decide)).1,
    (C11_ParseVersion_reads_three_components 7 0 0 (by decide) (by decide) (by decide)
      " " "" "" "" "" " " (by decide) (by decide) (by decide) (by decide) (by decide)
      (by decide)).2,
    (C11_ParseVersion_reads_three_components 7 0 0 (by decide) (by decide) (by decide)
      "" "" " " " " "" "" (by decide) (by decide) (by decide) (by decide) (by decide)
      (by decide)).2⟩
